import Mathlib

/-!
# Connect-four board engine (`board.go`)

A shallow embedding of `board.go` and a verification of its specification.

Modelling conventions.

* A board is the Go value `[NumRows][NumColumns]int`: a total function from
  `Fin 6 × Fin 7` to the integers.  Cell values are only stored and compared,
  never used in arithmetic, so they are modelled by `Int`.
* Go checks every index into a fixed-size array at run time and panics when it
  is out of range.  Indexing is therefore modelled by `Board.get` / `Board.set`
  on `Int` indices, which return `none` for an out-of-range index, and every
  function of the file runs in the `Option` monad: `none` is a run-time panic,
  `some v` is a normal return of `v`.
* A Go `for` loop with an early `return` is a `for … in … do` loop of the
  `Option` monad over the same index range.
* `ApplyMoveToBoard` mutates the board behind the pointer it is given and
  returns that pointer with an `error`; the model returns the final board
  together with `none` (a nil error) or `some message`.
* `GetStringBoard` fills a grid of strings cell by cell and calls `panic` on a
  cell value it does not know; the model threads the grid through the two loops
  and returns `none` for the panic.  The constants `Red` and `Black` it compares
  with are declared outside `board.go` and are parameters of the model.
-/

namespace Arena

/-! ## Constants -/

/-- Number of rows: `const NumRows = 6`. -/
abbrev NumRows : Nat := 6

/-- Number of columns: `const NumColumns = 7`. -/
abbrev NumColumns : Nat := 7

/-- Length of a winning line: `const NumConsecutive = 4`. -/
abbrev NumConsecutive : Nat := 4

/-- Modelled from the spec: the constant `Empty` is used by `board.go` but declared
in another file of the package; the specification fixes it as the zero value of a
cell ("`Empty` is the zero value"). -/
abbrev Empty : Int := 0

/-! ## Boards and checked indexing -/

/-- The Go type `[NumRows][NumColumns]int`; row 0 is the top row. -/
abbrev Board : Type := Fin NumRows → Fin NumColumns → Int

/-- The read `board[row][column]`: `none` (a panic) when an index is out of range. -/
def Board.get (board : Board) (row column : Int) : Option Int :=
  if h : 0 ≤ row ∧ row < NumRows ∧ 0 ≤ column ∧ column < NumColumns then
    some (board ⟨row.toNat, by have := h.1; have := h.2.1; omega⟩
      ⟨column.toNat, by have := h.2.2.1; have := h.2.2.2; omega⟩)
  else
    none

/-- The write `board[row][column] = value`: `none` (a panic) when an index is out of
range, otherwise the board with that one cell replaced. -/
def Board.set (board : Board) (row column : Int) (value : Int) : Option Board :=
  if 0 ≤ row ∧ row < NumRows ∧ 0 ≤ column ∧ column < NumColumns then
    some (fun r c => if (r.val : Int) = row ∧ (c.val : Int) = column then value else board r c)
  else
    none

/-! ## Win detection -/

/-- The closure `checkRowInColumn` local to `checkVerticalWin`. -/
def checkRowInColumn (column row : Int) (board : Board) : Option Bool := do
  let initColor ← board.get row column
  for k in [0:NumConsecutive] do
    if row + k ≥ NumRows then
      return false
    let value ← board.get (row + k) column
    if value = Empty ∨ value ≠ initColor then
      return false
  return true

/-- Go `checkVerticalWin`: row varies, column does not. -/
def checkVerticalWin (column : Int) (board : Board) : Option Bool := do
  for row in [0:NumRows - NumConsecutive + 1] do
    let initColor ← board.get row column
    if initColor = Empty then
      continue
    if (← checkRowInColumn column row board) then
      return true
  return false

/-- The closure `checkColumnInRow` local to `checkHorizontalWin`. -/
def checkColumnInRow (row column : Int) (board : Board) : Option Bool := do
  let initColor ← board.get row column
  for k in [0:NumConsecutive] do
    if column + k ≥ NumColumns then
      return false
    if (← board.get row (column + k)) ≠ initColor then
      return false
  return true

/-- Go `checkHorizontalWin`. -/
def checkHorizontalWin (row : Int) (board : Board) : Option Bool := do
  for column in [0:NumConsecutive] do
    let initColor ← board.get row column
    if initColor = Empty then
      continue
    if (← checkColumnInRow row column board) then
      return true
  return false

/-- Go `checkSoutheastDiagonalWin`: squares down and to the right. -/
def checkSoutheastDiagonalWin (row column : Int) (board : Board) : Option Bool := do
  let initColor ← board.get row column
  if initColor = Empty then
    return false
  for i in [0:NumConsecutive] do
    if (← board.get (row + i) (column + i)) ≠ initColor then
      return false
  return true

/-- Go `checkSouthwestDiagonalWin`: squares down and to the left. -/
def checkSouthwestDiagonalWin (row column : Int) (board : Board) : Option Bool := do
  let initColor ← board.get row column
  if initColor = Empty then
    return false
  for i in [0:NumConsecutive] do
    if (← board.get (row + i) (column - i)) ≠ initColor then
      return false
  return true

/-- Go `GameOver`: checks if a connect four exists. -/
def GameOver (board : Board) : Option Bool := do
  for column in [0:NumColumns] do
    if (← checkVerticalWin column board) then
      return true
  for row in [0:NumRows] do
    if (← checkHorizontalWin row board) then
      return true
  for row in [0:NumRows - NumConsecutive + 1] do
    for column in [0:NumColumns - NumConsecutive + 1] do
      if (← checkSoutheastDiagonalWin row column board) then
        return true
  for column in [NumColumns - NumConsecutive:NumColumns] do
    for row in [0:NumRows - NumConsecutive + 1] do
      if (← checkSouthwestDiagonalWin row column board) then
        return true
  return false

/-! ## Board state helpers -/

/-- The Go type `[NumRows][NumColumns]string`. -/
abbrev StringBoard : Type := Fin NumRows → Fin NumColumns → String

/-- The write `stringBoard[row][column] = value`: `none` (a panic) when an index is out
of range, otherwise the grid with that one cell replaced. -/
def StringBoard.set (stringBoard : StringBoard) (row column : Int) (value : String) :
    Option StringBoard :=
  if 0 ≤ row ∧ row < NumRows ∧ 0 ≤ column ∧ column < NumColumns then
    some (fun r c =>
      if (r.val : Int) = row ∧ (c.val : Int) = column then value else stringBoard r c)
  else
    none

/-- Go `GetStringBoard`.  The constants `Red` and `Black` are used by `board.go` but
declared in another file of the package, so they are parameters here.  The grid
starts as the zero value (every cell `""`); the call `panic(…)` is `none`. -/
def GetStringBoard (Red Black : Int) (board : Board) : Option StringBoard := do
  let mut stringBoard : StringBoard := fun _ _ => ""
  for row in [0:NumRows] do
    for column in [0:NumColumns] do
      if (← board.get row column) = Empty then
        stringBoard ← stringBoard.set row column ""
      else if (← board.get row column) = Red then
        stringBoard ← stringBoard.set row column "R"
      else if (← board.get row column) = Black then
        stringBoard ← stringBoard.set row column "B"
      else
        none
  return stringBoard

/-- Go `IsBoardFull`: checks the top row only. -/
def IsBoardFull (board : Board) : Option Bool := do
  for column in [0:NumColumns] do
    if (← board.get 0 column) = Empty then
      return false
  return true

/-- Go `ApplyMoveToBoard`.  The result is the board behind the returned pointer and
the returned error (`none` for `nil`, `some message` otherwise).  The loop runs
`i` from `NumRows - 1` down to `0`. -/
def ApplyMoveToBoard (move playerId : Int) (bp : Board) : Option (Board × Option String) := do
  if move ≥ NumColumns ∨ move < 0 then
    return (bp, some ("Move " ++ toString move ++ " is invalid"))
  let mut bp := bp
  for i in (List.range NumRows).reverse do
    if (← bp.get i move) = 0 then
      bp ← bp.set i move playerId
      return (bp, none)
  return (bp, some ("No room in column " ++ toString move ++ " for a move"))

/-- Go `InitializeBoard`: the board is initialized to be filled with zeros. -/
def InitializeBoard : Board := fun _ _ => 0

/-! ## Specification vocabulary -/

/-- Four cells starting at `(row, column)` and stepping by `(dRow, dColumn)` all lie
inside the board (the read succeeds) and hold one and the same non-`Empty` color. -/
def lineAt (board : Board) (row column dRow dColumn : Int) : Prop :=
  ∃ color : Int, color ≠ Empty ∧ ∀ i : Nat, i < NumConsecutive →
    board.get (row + i * dRow) (column + i * dColumn) = some color

/-- The four axes as (row step, column step): vertical, horizontal, diagonal
down-right, diagonal down-left. -/
def axes : List (Int × Int) := [(1, 0), (0, 1), (1, 1), (1, -1)]

/-- A four-in-a-row exists somewhere on the board along one of the four axes. -/
def FourInARow (board : Board) : Prop :=
  ∃ (row column : Int) (d : Int × Int), d ∈ axes ∧ lineAt board row column d.1 d.2

/-- The windows that `GameOver` inspects, scan by scan. -/
def Scanned (b : Board) : Prop :=
  (∃ column : Nat, column < NumColumns ∧
    ∃ row : Nat, row < NumRows - NumConsecutive + 1 ∧ lineAt b row column 1 0) ∨
  (∃ row : Nat, row < NumRows ∧
    ∃ column : Nat, column < NumConsecutive ∧ lineAt b row column 0 1) ∨
  (∃ row : Nat, row < NumRows - NumConsecutive + 1 ∧
    ∃ column : Nat, column < NumColumns - NumConsecutive + 1 ∧ lineAt b row column 1 1) ∨
  (∃ column : Nat, NumColumns - NumConsecutive ≤ column ∧ column < NumColumns ∧
    ∃ row : Nat, row < NumRows - NumConsecutive + 1 ∧ lineAt b row column 1 (-1))

/-- The call returns (does not panic) and its boolean result is `true` exactly
when `P` holds. -/
def Decides (o : Option Bool) (P : Prop) : Prop :=
  (P → o = some true) ∧ (¬ P → o = some false)

/-- The board `b` with the single cell `(r, c)` replaced by `v`. -/
def Board.update (b : Board) (r : Fin NumRows) (c : Fin NumColumns) (v : Int) : Board :=
  fun i j => if i = r ∧ j = c then v else b i j

/-- Gravity invariant: no cell above an `Empty` cell of the same column is
non-`Empty` (row `r` is above row `r'` when `r < r'`). -/
def Gravity (b : Board) : Prop :=
  ∀ (c : Fin NumColumns) (r r' : Fin NumRows), r < r' → b r' c = Empty → b r c = Empty

instance Gravity.decidable (b : Board) : Decidable (Gravity b) := by
  unfold Gravity
  infer_instance

/-- Runs a sequence of `ApplyMoveToBoard` calls, each given as (column, playerId),
on the board left by the previous call, whether that call succeeded or failed. -/
def playMoves : List (Int × Int) → Board → Option Board
  | [], b => some b
  | (move, playerId) :: rest, b =>
    (ApplyMoveToBoard move playerId b).bind fun result => playMoves rest result.1

/-- The set of cells in which two boards differ. -/
def diffCells (b b' : Board) : Finset (Fin NumRows × Fin NumColumns) :=
  Finset.univ.filter fun rc => b' rc.1 rc.2 ≠ b rc.1 rc.2

/-- A board whose top row is filled with color 1 and whose other rows are empty. -/
def topRowOnly : Board := fun r _ => if r.val = 0 then 1 else 0

/-- The board on which column `c` holds, from the bottom row upward, the pieces
`p 0, …, p (k-1)` (piece `i` in row `NumRows - 1 - i`) and every other cell is `Empty`. -/
def stacked (c : Fin NumColumns) (p : Nat → Int) (k : Nat) : Board :=
  fun r j => if j = c ∧ NumRows - k ≤ r.val then p (NumRows - 1 - r.val) else Empty

/-- The display symbol of a cell value: `""` for `Empty`, `"R"` for `Red`, `"B"` for
`Black`, and none for any other value. -/
def symbolOf (Red Black : Int) (value : Int) : Option String :=
  if value = Empty then some ""
  else if value = Red then some "R"
  else if value = Black then some "B"
  else none

/-- A board with one cell of color 1 and one cell of color 2 in the bottom row. -/
def twoPieces : Board :=
  fun r c => if r.val = 5 ∧ c.val = 0 then 1 else if r.val = 5 ∧ c.val = 1 then 2 else 0

/-- The board mirrored left to right: cell `(r, c)` holds what the board holds at
`(r, NumColumns - 1 - c)`. -/
def mirror (b : Board) : Board :=
  fun r c => b r ⟨NumColumns - 1 - c.val, Nat.lt_of_le_of_lt (Nat.sub_le _ _) (Nat.lt_succ_self _)⟩

/-- The number of non-`Empty` cells of a board. -/
def nonEmptyCount (b : Board) : Nat :=
  (Finset.univ.filter fun rc : Fin NumRows × Fin NumColumns => b rc.1 rc.2 ≠ Empty).card

/-- Runs a sequence of `ApplyMoveToBoard` calls like `playMoves` and also counts the
calls that succeeded (returned a nil error). -/
def playCount : List (Int × Int) → Board → Option (Board × Nat)
  | [], b => some (b, 0)
  | (move, playerId) :: rest, b =>
    (ApplyMoveToBoard move playerId b).bind fun result =>
      (playCount rest result.1).map fun out =>
        (out.1, out.2 + (if result.2 = none then 1 else 0))

/-- A board every cell of which holds color 1. -/
def fullOfOnes : Board := fun _ _ => 1

/-- Forty-two moves of color 1, six rounds over the columns `0, …, 6`. -/
def fillMoves : List (Int × Int) := (List.range 42).map fun i => (((i % 7 : Nat) : Int), 1)

/-! ## Loops with an early return -/

/-- A `for` loop over a list whose body either returns early or leaves the loop
state untouched stops at the first element on which it returns. -/
theorem forIn_firstHit {α β σ : Type} (xs : List α) (p : α → Bool) (v : α → β) (s : σ)
    (t : α → σ) (body : α → MProd (Option β) σ → Option (ForInStep (MProd (Option β) σ)))
    (h : ∀ x ∈ xs, body x ⟨none, s⟩ =
      some (if p x then ForInStep.done ⟨some (v x), t x⟩ else ForInStep.yield ⟨none, s⟩)) :
    forIn xs (⟨none, s⟩ : MProd (Option β) σ) body =
      some (match xs.find? p with
        | some x => ⟨some (v x), t x⟩
        | none => ⟨none, s⟩) := by
  induction xs with
  | nil => rfl
  | cons x xs ih =>
    rw [List.forIn_cons, h x (List.mem_cons_self x xs)]
    by_cases hp : p x = true
    · simp [hp, List.find?_cons]
    · have ih2 := ih (fun y hy => h y (List.mem_cons_of_mem x hy))
      simp only [hp, List.find?_cons]
      simpa using ih2

/-- A counting loop `for x := lo; x < hi; x++` that returns `v` at the first index
satisfying `P` and otherwise runs to the end. -/
theorem forIn_range_hit {β : Type} (lo hi : Nat) (P : Nat → Prop) [DecidablePred P]
    [Decidable (∃ x, lo ≤ x ∧ x < hi ∧ P x)] (v : β)
    (body : Nat → MProd (Option β) PUnit → Option (ForInStep (MProd (Option β) PUnit)))
    (h : ∀ x, lo ≤ x → x < hi → body x ⟨none, PUnit.unit⟩ =
      some (if P x then ForInStep.done ⟨some v, PUnit.unit⟩
        else ForInStep.yield ⟨none, PUnit.unit⟩)) :
    forIn [lo:hi] (⟨none, PUnit.unit⟩ : MProd (Option β) PUnit) body =
      some ⟨if ∃ x, lo ≤ x ∧ x < hi ∧ P x then some v else none, PUnit.unit⟩ := by
  rw [Std.Range.forIn_eq_forIn_range', Std.Range.numElems_step_1]
  have key := forIn_firstHit (List.range' lo (hi - lo)) (fun x => decide (P x)) (fun _ => v)
    PUnit.unit (fun _ => PUnit.unit) body (by
      intro x hx
      rw [List.mem_range'_1] at hx
      simpa using h x hx.1 (by omega))
  refine key.trans ?_
  by_cases hex : ∃ x, lo ≤ x ∧ x < hi ∧ P x
  · obtain ⟨x, h1, h2, h3⟩ := hex
    have hne : (List.range' lo (hi - lo)).find? (fun x => decide (P x)) ≠ none := by
      rw [Ne, List.find?_eq_none]
      intro hall
      have := hall x (by rw [List.mem_range'_1]; omega)
      simp [h3] at this
    rw [if_pos ⟨x, h1, h2, h3⟩]
    cases hf : (List.range' lo (hi - lo)).find? (fun x => decide (P x)) with
    | none => exact absurd hf hne
    | some y => rfl
  · have hnone : (List.range' lo (hi - lo)).find? (fun x => decide (P x)) = none := by
      rw [List.find?_eq_none]
      intro x hx hp
      rw [List.mem_range'_1] at hx
      exact hex ⟨x, hx.1, by omega, by simpa using hp⟩
    rw [if_neg hex, hnone]

/-- In a descending scan `n-1, …, 0` the first index satisfying `p` is the largest one. -/
theorem find?_range_reverse (n r : Nat) (p : Nat → Bool) (hr : r < n) (hp : p r = true)
    (hlow : ∀ r', r < r' → r' < n → p r' = false) :
    (List.range n).reverse.find? p = some r := by
  induction n with
  | zero => omega
  | succ n ih =>
    rw [List.range_succ, List.reverse_append, List.reverse_singleton, List.singleton_append,
      List.find?_cons]
    by_cases hrn : r = n
    · subst hrn
      rw [hp]
    · rw [hlow n (by omega) (by omega)]
      exact ih (by omega) (fun r' h1 h2 => hlow r' h1 (by omega))

/-- A descending scan `n-1, …, 0` finds nothing when no index satisfies `p`. -/
theorem find?_range_reverse_none (n : Nat) (p : Nat → Bool) (h : ∀ r, r < n → p r = false) :
    (List.range n).reverse.find? p = none := by
  rw [List.find?_eq_none]
  intro x hx
  rw [List.mem_reverse, List.mem_range] at hx
  simp [h x hx]

/-! ## Checked indexing -/

theorem Board.get_eq_none_iff (b : Board) (r c : Int) :
    b.get r c = none ↔ ¬ (0 ≤ r ∧ r < 6 ∧ 0 ≤ c ∧ c < 7) := by
  by_cases h : 0 ≤ r ∧ r < 6 ∧ 0 ≤ c ∧ c < 7 <;> simp [Board.get, h]

theorem Board.get_isSome_iff (b : Board) (r c : Int) :
    (∃ v, b.get r c = some v) ↔ (0 ≤ r ∧ r < 6 ∧ 0 ≤ c ∧ c < 7) := by
  by_cases h : 0 ≤ r ∧ r < 6 ∧ 0 ≤ c ∧ c < 7 <;> simp [Board.get, h]

theorem Board.get_inRange (b : Board) (r c : Int) (v : Int) (h : b.get r c = some v) :
    0 ≤ r ∧ r < 6 ∧ 0 ≤ c ∧ c < 7 :=
  (Board.get_isSome_iff b r c).1 ⟨v, h⟩

theorem Board.get_fin (b : Board) (r : Fin NumRows) (c : Fin NumColumns) :
    b.get (r.val : Int) (c.val : Int) = some (b r c) := by
  have hr := r.isLt
  have hc := c.isLt
  have h : 0 ≤ (r.val : Int) ∧ (r.val : Int) < (NumRows : Nat) ∧
      0 ≤ (c.val : Int) ∧ (c.val : Int) < (NumColumns : Nat) := by
    refine ⟨by omega, by omega, by omega, by omega⟩
  unfold Board.get
  rw [dif_pos h]
  simp

theorem Board.set_fin (b : Board) (r : Fin NumRows) (c : Fin NumColumns) (v : Int) :
    b.set (r.val : Int) (c.val : Int) v = some (b.update r c v) := by
  have hr := r.isLt
  have hc := c.isLt
  have h : 0 ≤ (r.val : Int) ∧ (r.val : Int) < (NumRows : Nat) ∧
      0 ≤ (c.val : Int) ∧ (c.val : Int) < (NumColumns : Nat) := by
    refine ⟨by omega, by omega, by omega, by omega⟩
  unfold Board.set
  rw [if_pos h]
  congr 1
  funext i j
  simp only [Board.update, Nat.cast_inj, Fin.val_inj]

/-! ## Win detection: what each scan decides -/

theorem lineAt_iff (b : Board) (row column dRow dColumn v0 : Int)
    (hv0 : b.get row column = some v0) :
    lineAt b row column dRow dColumn ↔
      v0 ≠ Empty ∧ ∀ i : Nat, i < NumConsecutive →
        b.get (row + i * dRow) (column + i * dColumn) = some v0 := by
  unfold lineAt
  constructor
  · rintro ⟨color, hne, hall⟩
    have h0 := hall 0 (by decide)
    simp only [Nat.cast_zero, zero_mul, add_zero, hv0, Option.some.injEq] at h0
    subst h0
    exact ⟨hne, hall⟩
  · rintro ⟨hne, hall⟩
    exact ⟨v0, hne, hall⟩

theorem decides_of_loop_false (o : Option Bool) (Q P : Prop) [Decidable Q]
    (ho : o = if Q then some false else some true) (hP : P ↔ ¬ Q) : Decides o P := by
  subst ho
  by_cases hq : Q
  · rw [if_pos hq]
    exact ⟨fun hp => absurd hq (hP.1 hp), fun _ => rfl⟩
  · rw [if_neg hq]
    exact ⟨fun _ => rfl, fun hp => absurd (hP.2 hq) hp⟩

theorem decides_of_loop_true (o : Option Bool) (Q P : Prop) [Decidable Q]
    (ho : o = if Q then some true else some false) (hP : P ↔ Q) : Decides o P := by
  subst ho
  by_cases hq : Q
  · rw [if_pos hq]
    exact ⟨fun _ => rfl, fun hp => absurd (hP.2 hq) hp⟩
  · rw [if_neg hq]
    exact ⟨fun hp => absurd (hP.1 hp) hq, fun _ => rfl⟩

theorem checkRowInColumn_decides (b : Board) (row column : Int)
    (hr : 0 ≤ row ∧ row < 6) (hc : 0 ≤ column ∧ column < 7) :
    Decides (checkRowInColumn column row b) (lineAt b row column 1 0) := by
  classical
  obtain ⟨v0, hv0⟩ := (Board.get_isSome_iff b row column).2 ⟨hr.1, hr.2, hc.1, hc.2⟩
  unfold checkRowInColumn
  rw [hv0]
  simp only [Option.bind_eq_bind, Option.some_bind, Option.pure_def, bind_pure_comp]
  rw [forIn_range_hit 0 NumConsecutive
    (fun k => ¬ (b.get (row + k) column = some v0 ∧ v0 ≠ Empty)) false]
  · apply decides_of_loop_false _
      (∃ x, 0 ≤ x ∧ x < NumConsecutive ∧ ¬(b.get (row + ↑x) column = some v0 ∧ v0 ≠ Empty))
    · by_cases hex : ∃ x, 0 ≤ x ∧ x < NumConsecutive ∧
          ¬(b.get (row + ↑x) column = some v0 ∧ v0 ≠ Empty)
      · rw [if_pos hex, if_pos hex]; rfl
      · rw [if_neg hex, if_neg hex]; rfl
    · rw [lineAt_iff b row column 1 0 v0 hv0]
      simp only [mul_one, mul_zero, add_zero]
      constructor
      · rintro ⟨hne, hall⟩ ⟨x, -, hx, hbad⟩
        exact hbad ⟨hall x hx, hne⟩
      · intro hno
        push_neg at hno
        exact ⟨(hno 0 (le_refl _) (by decide)).2, fun i hi => (hno i (Nat.zero_le _) hi).1⟩
  · intro k _ hk
    by_cases h6 : row + k ≥ 6
    · have hg : b.get (row + ↑k) column = none := by
        rw [Board.get_eq_none_iff]; omega
      simp [hg, h6]
    · obtain ⟨value, hg⟩ := (Board.get_isSome_iff b (row + k) column).2 (by omega)
      have h6b : ¬ (row + (k : Int) ≥ ((NumRows : Nat) : Int)) := by simpa using h6
      rw [if_neg h6b, hg]
      by_cases hv : value = v0
      · subst hv
        by_cases hE : value = Empty <;> simp [hE]
      · simp [hv]

theorem checkVerticalWin_decides (b : Board) (column : Int) (hc : 0 ≤ column ∧ column < 7) :
    Decides (checkVerticalWin column b)
      (∃ row : Nat, row < NumRows - NumConsecutive + 1 ∧ lineAt b row column 1 0) := by
  classical
  unfold checkVerticalWin
  simp only [Option.bind_eq_bind, Option.some_bind, Option.pure_def, bind_pure_comp]
  rw [forIn_range_hit 0 (NumRows - NumConsecutive + 1) (fun row => lineAt b row column 1 0) true]
  · apply decides_of_loop_true _
      (∃ x, 0 ≤ x ∧ x < NumRows - NumConsecutive + 1 ∧ lineAt b (↑x) column 1 0)
    · by_cases hex : ∃ x, 0 ≤ x ∧ x < NumRows - NumConsecutive + 1 ∧ lineAt b (↑x) column 1 0
      · rw [if_pos hex, if_pos hex]; rfl
      · rw [if_neg hex, if_neg hex]; rfl
    · simp only [Nat.zero_le, true_and]
  · intro row _ hrow
    have hrow3 : row < 3 := hrow
    obtain ⟨v0, hv0⟩ := (Board.get_isSome_iff b row column).2 ⟨by omega, by omega, hc.1, hc.2⟩
    rw [hv0, Option.some_bind]
    by_cases hE : v0 = Empty
    · have hnl : ¬ lineAt b row column 1 0 := by
        rw [lineAt_iff b row column 1 0 v0 hv0]
        exact fun h => h.1 hE
      rw [if_pos hE, if_neg hnl]
    · rw [if_neg hE]
      have hd := checkRowInColumn_decides b row column ⟨by omega, by omega⟩ hc
      by_cases hl : lineAt b row column 1 0
      · rw [hd.1 hl, if_pos hl]; rfl
      · rw [hd.2 hl, if_neg hl]; rfl


theorem checkColumnInRow_decides (b : Board) (row column v0 : Int)
    (hv0 : b.get row column = some v0) :
    Decides (checkColumnInRow row column b)
      (∀ i : Nat, i < NumConsecutive → b.get row (column + i) = some v0) := by
  classical
  have hin := Board.get_inRange b row column v0 hv0
  unfold checkColumnInRow
  rw [hv0]
  simp only [Option.bind_eq_bind, Option.some_bind, Option.pure_def, bind_pure_comp]
  rw [forIn_range_hit 0 NumConsecutive (fun k => ¬ (b.get row (column + k) = some v0)) false]
  · apply decides_of_loop_false _
      (∃ x, 0 ≤ x ∧ x < NumConsecutive ∧ ¬(b.get row (column + ↑x) = some v0))
    · by_cases hex : ∃ x, 0 ≤ x ∧ x < NumConsecutive ∧ ¬(b.get row (column + ↑x) = some v0)
      · rw [if_pos hex, if_pos hex]; rfl
      · rw [if_neg hex, if_neg hex]; rfl
    · constructor
      · rintro hall ⟨x, -, hx, hbad⟩
        exact hbad (hall x hx)
      · intro hno i hi
        by_contra hbad
        exact hno ⟨i, Nat.zero_le _, hi, hbad⟩
  · intro k _ hk
    by_cases h7 : column + k ≥ 7
    · have hg : b.get row (column + ↑k) = none := by
        rw [Board.get_eq_none_iff]; omega
      simp [hg, h7]
    · obtain ⟨value, hg⟩ := (Board.get_isSome_iff b row (column + k)).2 (by omega)
      have h7b : ¬ (column + (k : Int) ≥ ((NumColumns : Nat) : Int)) := by simpa using h7
      rw [if_neg h7b, hg]
      by_cases hv : value = v0 <;> simp [hv]

theorem checkHorizontalWin_decides (b : Board) (row : Int) (hr : 0 ≤ row ∧ row < 6) :
    Decides (checkHorizontalWin row b)
      (∃ column : Nat, column < NumConsecutive ∧ lineAt b row column 0 1) := by
  classical
  unfold checkHorizontalWin
  simp only [Option.bind_eq_bind, Option.some_bind, Option.pure_def, bind_pure_comp]
  rw [forIn_range_hit 0 NumConsecutive (fun column => lineAt b row column 0 1) true]
  · apply decides_of_loop_true _
      (∃ x, 0 ≤ x ∧ x < NumConsecutive ∧ lineAt b row (↑x) 0 1)
    · by_cases hex : ∃ x, 0 ≤ x ∧ x < NumConsecutive ∧ lineAt b row (↑x) 0 1
      · rw [if_pos hex, if_pos hex]; rfl
      · rw [if_neg hex, if_neg hex]; rfl
    · simp only [Nat.zero_le, true_and]
  · intro column _ hcol
    have hcol4 : column < 4 := hcol
    obtain ⟨v0, hv0⟩ := (Board.get_isSome_iff b row column).2 ⟨hr.1, hr.2, by omega, by omega⟩
    rw [hv0, Option.some_bind]
    have hiff := lineAt_iff b row column 0 1 v0 hv0
    simp only [mul_one, mul_zero, add_zero] at hiff
    by_cases hE : v0 = Empty
    · have hnl : ¬ lineAt b row column 0 1 := fun h => (hiff.1 h).1 hE
      rw [if_pos hE, if_neg hnl]
    · rw [if_neg hE]
      have hd := checkColumnInRow_decides b row column v0 hv0
      by_cases hl : lineAt b row column 0 1
      · rw [hd.1 (hiff.1 hl).2, if_pos hl]; rfl
      · rw [hd.2 (fun h => hl (hiff.2 ⟨hE, h⟩)), if_neg hl]; rfl

theorem checkSoutheastDiagonalWin_decides (b : Board) (row column : Int)
    (hr : 0 ≤ row ∧ row < 3) (hc : 0 ≤ column ∧ column < 4) :
    Decides (checkSoutheastDiagonalWin row column b) (lineAt b row column 1 1) := by
  classical
  obtain ⟨v0, hv0⟩ := (Board.get_isSome_iff b row column).2 ⟨by omega, by omega, by omega, by omega⟩
  have hiff := lineAt_iff b row column 1 1 v0 hv0
  simp only [mul_one] at hiff
  unfold checkSoutheastDiagonalWin
  rw [hv0]
  simp only [Option.bind_eq_bind, Option.some_bind, Option.pure_def, bind_pure_comp]
  by_cases hE : v0 = Empty
  · rw [if_pos hE]
    exact ⟨fun h => absurd hE (hiff.1 h).1, fun _ => rfl⟩
  · rw [if_neg hE]
    rw [forIn_range_hit 0 NumConsecutive
      (fun k => ¬ (b.get (row + k) (column + k) = some v0)) false]
    · apply decides_of_loop_false _
        (∃ x, 0 ≤ x ∧ x < NumConsecutive ∧ ¬(b.get (row + ↑x) (column + ↑x) = some v0))
      · by_cases hex : ∃ x, 0 ≤ x ∧ x < NumConsecutive ∧
            ¬(b.get (row + ↑x) (column + ↑x) = some v0)
        · rw [if_pos hex, if_pos hex]; rfl
        · rw [if_neg hex, if_neg hex]; rfl
      · rw [hiff]
        constructor
        · rintro ⟨-, hall⟩ ⟨x, -, hx, hbad⟩
          exact hbad (hall x hx)
        · intro hno
          refine ⟨hE, fun i hi => ?_⟩
          by_contra hbad
          exact hno ⟨i, Nat.zero_le _, hi, hbad⟩
    · intro k _ hk
      have hk4 : k < 4 := hk
      obtain ⟨value, hg⟩ := (Board.get_isSome_iff b (row + k) (column + k)).2
        ⟨by omega, by omega, by omega, by omega⟩
      rw [hg]
      by_cases hv : value = v0 <;> simp [hv]

theorem checkSouthwestDiagonalWin_decides (b : Board) (row column : Int)
    (hr : 0 ≤ row ∧ row < 3) (hc : 3 ≤ column ∧ column < 7) :
    Decides (checkSouthwestDiagonalWin row column b) (lineAt b row column 1 (-1)) := by
  classical
  obtain ⟨v0, hv0⟩ := (Board.get_isSome_iff b row column).2 ⟨by omega, by omega, by omega, by omega⟩
  have hiff := lineAt_iff b row column 1 (-1) v0 hv0
  simp only [mul_one, mul_neg, ← sub_eq_add_neg] at hiff
  unfold checkSouthwestDiagonalWin
  rw [hv0]
  simp only [Option.bind_eq_bind, Option.some_bind, Option.pure_def, bind_pure_comp]
  by_cases hE : v0 = Empty
  · rw [if_pos hE]
    exact ⟨fun h => absurd hE (hiff.1 h).1, fun _ => rfl⟩
  · rw [if_neg hE]
    rw [forIn_range_hit 0 NumConsecutive
      (fun k => ¬ (b.get (row + k) (column - k) = some v0)) false]
    · apply decides_of_loop_false _
        (∃ x, 0 ≤ x ∧ x < NumConsecutive ∧ ¬(b.get (row + ↑x) (column - ↑x) = some v0))
      · by_cases hex : ∃ x, 0 ≤ x ∧ x < NumConsecutive ∧
            ¬(b.get (row + ↑x) (column - ↑x) = some v0)
        · rw [if_pos hex, if_pos hex]; rfl
        · rw [if_neg hex, if_neg hex]; rfl
      · rw [hiff]
        constructor
        · rintro ⟨-, hall⟩ ⟨x, -, hx, hbad⟩
          exact hbad (hall x hx)
        · intro hno
          refine ⟨hE, fun i hi => ?_⟩
          by_contra hbad
          exact hno ⟨i, Nat.zero_le _, hi, hbad⟩
    · intro k _ hk
      have hk4 : k < 4 := hk
      obtain ⟨value, hg⟩ := (Board.get_isSome_iff b (row + k) (column - k)).2
        ⟨by omega, by omega, by omega, by omega⟩
      rw [hg]
      by_cases hv : value = v0 <;> simp [hv]

theorem GameOver_decides (b : Board) : Decides (GameOver b) (Scanned b) := by
  classical
  unfold GameOver
  simp only [Option.bind_eq_bind, Option.some_bind, Option.pure_def, bind_pure_comp]
  rw [forIn_range_hit 0 NumColumns
    (fun column => ∃ row : Nat, row < NumRows - NumConsecutive + 1 ∧ lineAt b row column 1 0)
    true,
    forIn_range_hit 0 NumRows
    (fun row => ∃ column : Nat, column < NumConsecutive ∧ lineAt b row column 0 1) true,
    forIn_range_hit 0 (NumRows - NumConsecutive + 1)
    (fun row => ∃ column : Nat, 0 ≤ column ∧ column < NumColumns - NumConsecutive + 1 ∧
      lineAt b row column 1 1) true,
    forIn_range_hit (NumColumns - NumConsecutive) NumColumns
    (fun column => ∃ row : Nat, 0 ≤ row ∧ row < NumRows - NumConsecutive + 1 ∧
      lineAt b row column 1 (-1)) true]
  · unfold Scanned
    simp only [Nat.zero_le, true_and]
    by_cases h1 : ∃ x, x < NumColumns ∧
        ∃ row : Nat, row < NumRows - NumConsecutive + 1 ∧ lineAt b row x 1 0
    · rw [if_pos h1]
      exact ⟨fun _ => rfl, fun h => absurd (Or.inl h1) h⟩
    rw [if_neg h1]
    by_cases h2 : ∃ x, x < NumRows ∧
        ∃ column : Nat, column < NumConsecutive ∧ lineAt b x column 0 1
    · rw [if_pos h2]
      exact ⟨fun _ => rfl, fun h => absurd (Or.inr (Or.inl h2)) h⟩
    rw [if_neg h2]
    by_cases h3 : ∃ x, x < NumRows - NumConsecutive + 1 ∧
        ∃ column : Nat, column < NumColumns - NumConsecutive + 1 ∧ lineAt b x column 1 1
    · rw [if_pos h3]
      exact ⟨fun _ => rfl, fun h => absurd (Or.inr (Or.inr (Or.inl h3))) h⟩
    rw [if_neg h3]
    by_cases h4 : ∃ x, NumColumns - NumConsecutive ≤ x ∧ x < NumColumns ∧
        ∃ row : Nat, row < NumRows - NumConsecutive + 1 ∧ lineAt b row x 1 (-1)
    · rw [if_pos h4]
      exact ⟨fun _ => rfl, fun h => absurd (Or.inr (Or.inr (Or.inr h4))) h⟩
    rw [if_neg h4]
    refine ⟨fun h => ?_, fun _ => rfl⟩
    rcases h with h | h | h | h
    · exact absurd h h1
    · exact absurd h h2
    · exact absurd h h3
    · exact absurd h h4
  · intro column hlo hhi
    have h7 : column < 7 := hhi
    have h3 : 3 ≤ column := hlo
    rw [forIn_range_hit 0 (NumRows - NumConsecutive + 1)
      (fun row => lineAt b row column 1 (-1)) true]
    · by_cases hex : ∃ x, 0 ≤ x ∧ x < NumRows - NumConsecutive + 1 ∧ lineAt b x column 1 (-1)
      · rw [if_pos hex, if_pos hex]; rfl
      · rw [if_neg hex, if_neg hex]; rfl
    · intro row _ hrow
      have hrow3 : row < 3 := hrow
      have hd := checkSouthwestDiagonalWin_decides b row column ⟨by omega, by omega⟩
        ⟨by omega, by omega⟩
      by_cases hl : lineAt b row column 1 (-1)
      · rw [hd.1 hl, if_pos hl]; rfl
      · rw [hd.2 hl, if_neg hl]; rfl
  · intro row _ hhi
    have h3 : row < 3 := hhi
    rw [forIn_range_hit 0 (NumColumns - NumConsecutive + 1)
      (fun column => lineAt b row column 1 1) true]
    · by_cases hex : ∃ x, 0 ≤ x ∧ x < NumColumns - NumConsecutive + 1 ∧ lineAt b row x 1 1
      · rw [if_pos hex, if_pos hex]; rfl
      · rw [if_neg hex, if_neg hex]; rfl
    · intro column _ hcol
      have hcol4 : column < 4 := hcol
      have hd := checkSoutheastDiagonalWin_decides b row column ⟨by omega, by omega⟩
        ⟨by omega, by omega⟩
      by_cases hl : lineAt b row column 1 1
      · rw [hd.1 hl, if_pos hl]; rfl
      · rw [hd.2 hl, if_neg hl]; rfl
  · intro row _ hhi
    have h6 : row < 6 := hhi
    have hd := checkHorizontalWin_decides b row ⟨by omega, by omega⟩
    by_cases hl : ∃ column : Nat, column < NumConsecutive ∧ lineAt b row column 0 1
    · rw [hd.1 hl, if_pos hl]; rfl
    · rw [hd.2 hl, if_neg hl]; rfl
  · intro column _ hhi
    have h7 : column < 7 := hhi
    have hd := checkVerticalWin_decides b column ⟨by omega, by omega⟩
    by_cases hl : ∃ row : Nat, row < NumRows - NumConsecutive + 1 ∧ lineAt b row column 1 0
    · rw [hd.1 hl, if_pos hl]; rfl
    · rw [hd.2 hl, if_neg hl]; rfl

theorem lineAt_bounds (b : Board) (row column dRow dColumn : Int)
    (h : lineAt b row column dRow dColumn) :
    (0 ≤ row ∧ row < 6 ∧ 0 ≤ column ∧ column < 7) ∧
    (0 ≤ row + 3 * dRow ∧ row + 3 * dRow < 6 ∧
      0 ≤ column + 3 * dColumn ∧ column + 3 * dColumn < 7) := by
  obtain ⟨color, -, hall⟩ := h
  have h0 := Board.get_inRange b _ _ _ (hall 0 (by decide))
  have h3 := Board.get_inRange b _ _ _ (hall 3 (by decide))
  simp only [Nat.cast_zero, zero_mul, add_zero] at h0
  simp only [Nat.cast_ofNat] at h3
  exact ⟨h0, h3⟩

theorem fourInARow_iff_scanned (b : Board) : FourInARow b ↔ Scanned b := by
  constructor
  · rintro ⟨row, column, d, hd, hline⟩
    obtain ⟨h0, h3⟩ := lineAt_bounds b row column d.1 d.2 hline
    have hrow : ((row.toNat : Nat) : Int) = row := Int.toNat_of_nonneg h0.1
    have hcol : ((column.toNat : Nat) : Int) = column := Int.toNat_of_nonneg h0.2.2.1
    simp only [axes, List.mem_cons, List.mem_singleton, List.not_mem_nil, or_false] at hd
    rcases hd with rfl | rfl | rfl | rfl
    · refine Or.inl ⟨column.toNat, ?_, row.toNat, ?_, ?_⟩
      · show column.toNat < 7
        omega
      · show row.toNat < 3
        simp only at h3
        omega
      · rw [hrow, hcol]; exact hline
    · refine Or.inr (Or.inl ⟨row.toNat, ?_, column.toNat, ?_, ?_⟩)
      · show row.toNat < 6
        omega
      · show column.toNat < 4
        simp only at h3
        omega
      · rw [hrow, hcol]; exact hline
    · refine Or.inr (Or.inr (Or.inl ⟨row.toNat, ?_, column.toNat, ?_, ?_⟩))
      · show row.toNat < 3
        simp only at h3
        omega
      · show column.toNat < 4
        simp only at h3
        omega
      · rw [hrow, hcol]; exact hline
    · refine Or.inr (Or.inr (Or.inr ⟨column.toNat, ?_, ?_, row.toNat, ?_, ?_⟩))
      · show 3 ≤ column.toNat
        simp only at h3
        omega
      · show column.toNat < 7
        omega
      · show row.toNat < 3
        simp only at h3
        omega
      · rw [hrow, hcol]; exact hline
  · rintro (⟨column, -, row, -, h⟩ | ⟨row, -, column, -, h⟩ | ⟨row, -, column, -, h⟩ |
      ⟨column, -, -, row, -, h⟩)
    · exact ⟨row, column, (1, 0), by simp [axes], h⟩
    · exact ⟨row, column, (0, 1), by simp [axes], h⟩
    · exact ⟨row, column, (1, 1), by simp [axes], h⟩
    · exact ⟨row, column, (1, -1), by simp [axes], h⟩

/-- C1: `GameOver` returns, and it returns `true` exactly when four cells lying
consecutively along one of the four axes (vertical, horizontal, diagonal down-right,
diagonal down-left), all inside the board, hold the same non-`Empty` value; it
returns `false` exactly when no such four cells exist. -/
theorem gameOver_iff_fourInARow (b : Board) :
    (GameOver b = some true ↔ FourInARow b) ∧ (GameOver b = some false ↔ ¬ FourInARow b) := by
  have hd := GameOver_decides b
  rw [← fourInARow_iff_scanned] at hd
  by_cases h : FourInARow b
  · have ht := hd.1 h
    refine ⟨⟨fun _ => h, fun _ => ht⟩, ⟨fun hf => ?_, fun hn => absurd h hn⟩⟩
    rw [ht] at hf
    cases hf
  · have hf := hd.2 h
    refine ⟨⟨fun ht => ?_, fun hp => absurd hp h⟩, ⟨fun _ => h, fun _ => hf⟩⟩
    rw [hf] at ht
    cases ht

/-! ## `ApplyMoveToBoard` -/

theorem applyMove_invalid (b : Board) (move playerId : Int) (h : move < 0 ∨ move ≥ NumColumns) :
    ApplyMoveToBoard move playerId b =
      some (b, some ("Move " ++ toString move ++ " is invalid")) := by
  unfold ApplyMoveToBoard
  have h' : move ≥ (NumColumns : Nat) ∨ move < 0 := h.symm
  rw [if_pos h']
  rfl

theorem applyMove_scan (b : Board) (c : Fin NumColumns) (playerId : Int) :
    ApplyMoveToBoard c playerId b =
      some (match (List.range NumRows).reverse.find?
          (fun i : Nat => decide (b.get (i : Int) c = some 0)) with
        | some i => (if h : i < NumRows then b.update ⟨i, h⟩ c playerId else b, none)
        | none => (b, some ("No room in column " ++ toString (c.val : Int) ++ " for a move"))) := by
  unfold ApplyMoveToBoard
  have hc := c.isLt
  have h' : ¬ (((c.val : Nat) : Int) ≥ (NumColumns : Nat) ∨ ((c.val : Nat) : Int) < 0) := by
    omega
  rw [if_neg h']
  simp only [Option.bind_eq_bind, Option.some_bind, Option.pure_def, bind_pure_comp]
  rw [forIn_firstHit (List.range NumRows).reverse (fun i : Nat => decide (b.get (i : Int) c = some 0))
    (fun i => (if h : i < NumRows then b.update ⟨i, h⟩ c playerId else b, none)) b
    (fun i => if h : i < NumRows then b.update ⟨i, h⟩ c playerId else b)]
  · cases (List.range NumRows).reverse.find? (fun i : Nat => decide (b.get (i : Int) c = some 0)) with
    | none => rfl
    | some i => rfl
  · intro i hi
    rw [List.mem_reverse, List.mem_range] at hi
    dsimp only
    have hg := Board.get_fin b ⟨i, hi⟩ c
    have hs := Board.set_fin b ⟨i, hi⟩ c playerId
    simp only at hg hs
    rw [hg, hs, dif_pos hi]
    by_cases h0 : b ⟨i, hi⟩ c = 0 <;> simp [h0]

theorem applyMove_place (b : Board) (c : Fin NumColumns) (playerId : Int) (r : Fin NumRows)
    (hr : b r c = 0) (hlow : ∀ r' : Fin NumRows, r < r' → b r' c ≠ 0) :
    ApplyMoveToBoard c playerId b = some (b.update r c playerId, none) := by
  rw [applyMove_scan, find?_range_reverse NumRows r.val _ r.isLt]
  · simp only [Fin.is_lt, dite_true, Fin.eta]
  · have hg := Board.get_fin b r c
    simp [hg, hr]
  · intro r' h1 h2
    have hg := Board.get_fin b ⟨r', h2⟩ c
    simp only at hg
    have := hlow ⟨r', h2⟩ (by simpa [Fin.lt_def] using h1)
    simp [hg, this]

theorem applyMove_full (b : Board) (c : Fin NumColumns) (playerId : Int)
    (hfull : ∀ r : Fin NumRows, b r c ≠ 0) :
    ApplyMoveToBoard c playerId b =
      some (b, some ("No room in column " ++ toString (c.val : Int) ++ " for a move")) := by
  rw [applyMove_scan, find?_range_reverse_none NumRows]
  intro r hr
  have hg := Board.get_fin b ⟨r, hr⟩ c
  simp only at hg
  simp [hg, hfull ⟨r, hr⟩]

theorem exists_lowest_empty (b : Board) (c : Fin NumColumns) (h : ∃ r, b r c = 0) :
    ∃ r : Fin NumRows, b r c = 0 ∧ ∀ r' : Fin NumRows, r < r' → b r' c ≠ 0 := by
  classical
  have hne : (Finset.univ.filter fun r : Fin NumRows => b r c = 0).Nonempty := by
    obtain ⟨r, hr⟩ := h
    exact ⟨r, by simp [hr]⟩
  refine ⟨Finset.max' _ hne, ?_, ?_⟩
  · have := Finset.max'_mem _ hne
    simpa using this
  · intro r' hlt h0
    have hle := Finset.le_max' (Finset.univ.filter fun r : Fin NumRows => b r c = 0) r'
      (by simp [h0])
    exact absurd hlt (not_lt.2 hle)

/-- Every call of `ApplyMoveToBoard` returns, in one of three ways. -/
theorem applyMove_cases (b : Board) (move playerId : Int) :
    ((move < 0 ∨ move ≥ NumColumns) ∧ ApplyMoveToBoard move playerId b =
        some (b, some ("Move " ++ toString move ++ " is invalid"))) ∨
    (∃ c : Fin NumColumns, (c.val : Int) = move ∧ (∀ r : Fin NumRows, b r c ≠ 0) ∧
      ApplyMoveToBoard move playerId b =
        some (b, some ("No room in column " ++ toString move ++ " for a move"))) ∨
    (∃ (c : Fin NumColumns) (r : Fin NumRows), (c.val : Int) = move ∧ b r c = 0 ∧
      (∀ r' : Fin NumRows, r < r' → b r' c ≠ 0) ∧
      ApplyMoveToBoard move playerId b = some (b.update r c playerId, none)) := by
  by_cases hbad : move < 0 ∨ move ≥ NumColumns
  · exact Or.inl ⟨hbad, applyMove_invalid b move playerId hbad⟩
  · have hbad' : ¬ (move < 0 ∨ move ≥ 7) := hbad
    have h0 : 0 ≤ move := by omega
    have h7 : move.toNat < NumColumns := by
      show move.toNat < 7
      omega
    have hcast : (((⟨move.toNat, h7⟩ : Fin NumColumns).val : Nat) : Int) = move :=
      Int.toNat_of_nonneg h0
    by_cases hfull : ∀ r : Fin NumRows, b r ⟨move.toNat, h7⟩ ≠ 0
    · refine Or.inr (Or.inl ⟨⟨move.toNat, h7⟩, hcast, hfull, ?_⟩)
      have := applyMove_full b ⟨move.toNat, h7⟩ playerId hfull
      rw [hcast] at this
      exact this
    · push_neg at hfull
      obtain ⟨r, hr, hlow⟩ := exists_lowest_empty b ⟨move.toNat, h7⟩ hfull
      refine Or.inr (Or.inr ⟨⟨move.toNat, h7⟩, r, hcast, hr, hlow, ?_⟩)
      have := applyMove_place b ⟨move.toNat, h7⟩ playerId r hr hlow
      rw [hcast] at this
      exact this

theorem Board.update_same (b : Board) (r : Fin NumRows) (c : Fin NumColumns) (v : Int) :
    b.update r c v r c = v := by
  simp [Board.update]

theorem Board.update_other (b : Board) (r : Fin NumRows) (c : Fin NumColumns) (v : Int)
    (i : Fin NumRows) (j : Fin NumColumns) (h : i ≠ r ∨ j ≠ c) : b.update r c v i j = b i j := by
  unfold Board.update
  rw [if_neg]
  rintro ⟨rfl, rfl⟩
  rcases h with h | h <;> exact h rfl

theorem Board.update_self (b : Board) (r : Fin NumRows) (c : Fin NumColumns) :
    b.update r c (b r c) = b := by
  funext i j
  unfold Board.update
  split
  · next h => rw [h.1, h.2]
  · rfl

theorem diffCells_update (b : Board) (r : Fin NumRows) (c : Fin NumColumns) (v : Int) :
    diffCells b (b.update r c v) = if v = b r c then ∅ else {(r, c)} := by
  ext ⟨i, j⟩
  by_cases hv : v = b r c
  · subst hv
    simp [diffCells, Board.update_self]
  · rw [if_neg hv]
    simp only [diffCells, Finset.mem_filter, Finset.mem_univ, true_and, Finset.mem_singleton,
      Prod.mk.injEq]
    by_cases hij : i = r ∧ j = c
    · obtain ⟨rfl, rfl⟩ := hij
      simp [Board.update_same, hv]
    · have : i ≠ r ∨ j ≠ c := by
        by_contra hcon
        push_neg at hcon
        exact hij hcon
      simp [Board.update_other b r c v i j this, hij]

/-! ## The gravity invariant -/

theorem gravity_init : Gravity InitializeBoard := by
  intro c r r' _ _
  rfl

theorem gravity_update (b : Board) (hg : Gravity b) (c : Fin NumColumns) (r : Fin NumRows)
    (playerId : Int) (hr : b r c = 0) (hlow : ∀ r' : Fin NumRows, r < r' → b r' c ≠ 0) :
    Gravity (b.update r c playerId) := by
  intro c' i i' hlt hempty
  by_cases hi' : i' = r ∧ c' = c
  · obtain ⟨rfl, rfl⟩ := hi'
    rw [Board.update_other b i' c' playerId i c' (Or.inl (ne_of_lt hlt))]
    exact hg c' i i' hlt hr
  · have hne' : i' ≠ r ∨ c' ≠ c := by
      by_contra hcon
      push_neg at hcon
      exact hi' hcon
    rw [Board.update_other b r c playerId i' c' hne'] at hempty
    by_cases hi : i = r ∧ c' = c
    · obtain ⟨rfl, rfl⟩ := hi
      exact absurd hempty (hlow i' hlt)
    · have hne : i ≠ r ∨ c' ≠ c := by
        by_contra hcon
        push_neg at hcon
        exact hi hcon
      rw [Board.update_other b r c playerId i c' hne]
      exact hg c' i i' hlt hempty

theorem gravity_step (b : Board) (move playerId : Int) (hg : Gravity b) :
    ∃ b' e, ApplyMoveToBoard move playerId b = some (b', e) ∧ Gravity b' := by
  rcases applyMove_cases b move playerId with ⟨-, h⟩ | ⟨c, -, -, h⟩ | ⟨c, r, -, hr, hlow, h⟩
  · exact ⟨b, _, h, hg⟩
  · exact ⟨b, _, h, hg⟩
  · exact ⟨_, _, h, gravity_update b hg c r playerId hr hlow⟩

theorem gravity_playMoves (moves : List (Int × Int)) (b : Board) (hg : Gravity b) :
    ∃ b', playMoves moves b = some b' ∧ Gravity b' := by
  induction moves generalizing b with
  | nil => exact ⟨b, rfl, hg⟩
  | cons m rest ih =>
    obtain ⟨move, playerId⟩ := m
    obtain ⟨b1, e, h1, hg1⟩ := gravity_step b move playerId hg
    obtain ⟨b2, h2, hg2⟩ := ih b1 hg1
    refine ⟨b2, ?_, hg2⟩
    simp only [playMoves, h1, Option.some_bind]
    exact h2

/-! ## `IsBoardFull` -/

theorem IsBoardFull_decides (b : Board) :
    Decides (IsBoardFull b) (∀ c : Fin NumColumns, b 0 c ≠ Empty) := by
  classical
  unfold IsBoardFull
  simp only [Option.bind_eq_bind, Option.some_bind, Option.pure_def, bind_pure_comp]
  rw [forIn_range_hit 0 NumColumns (fun column => b.get 0 column = some Empty) false]
  · apply decides_of_loop_false _
      (∃ x, 0 ≤ x ∧ x < NumColumns ∧ b.get 0 (x : Int) = some Empty)
    · by_cases hex : ∃ x, 0 ≤ x ∧ x < NumColumns ∧ b.get 0 (x : Int) = some Empty
      · rw [if_pos hex, if_pos hex]; rfl
      · rw [if_neg hex, if_neg hex]; rfl
    · constructor
      · rintro hall ⟨x, -, hx, hbad⟩
        have hg := Board.get_fin b 0 ⟨x, hx⟩
        simp only [Fin.val_zero, Nat.cast_zero] at hg
        rw [hg] at hbad
        exact hall ⟨x, hx⟩ (Option.some.inj hbad)
      · intro hno c hc
        refine hno ⟨c.val, Nat.zero_le _, c.isLt, ?_⟩
        have hg := Board.get_fin b 0 c
        simp only [Fin.val_zero, Nat.cast_zero] at hg
        rw [hg, hc]
  · intro x _ hx
    have hg := Board.get_fin b 0 ⟨x, hx⟩
    simp only [Fin.val_zero, Nat.cast_zero] at hg
    rw [hg]
    by_cases h0 : b 0 ⟨x, hx⟩ = Empty <;> simp [h0]

theorem Decides.eq_true_iff {o : Option Bool} {P : Prop} (h : Decides o P) :
    o = some true ↔ P := by
  constructor
  · intro ht
    by_contra hn
    have := h.2 hn
    rw [ht] at this
    cases this
  · exact h.1

theorem Decides.eq_false_iff {o : Option Bool} {P : Prop} (h : Decides o P) :
    o = some false ↔ ¬ P := by
  constructor
  · intro hf hp
    have := h.1 hp
    rw [hf] at this
    cases this
  · exact h.2

theorem gravity_top_full (b : Board) (hg : Gravity b) (h : ∀ c : Fin NumColumns, b 0 c ≠ Empty) :
    ∀ (r : Fin NumRows) (c : Fin NumColumns), b r c ≠ Empty := by
  intro r c hrc
  by_cases hr : r = 0
  · subst hr
    exact h c hrc
  · exact h c (hg c 0 r (Fin.pos_of_ne_zero hr) hrc)

/-! ## The claims about `ApplyMoveToBoard` and `IsBoardFull` -/

/-- C2: for an in-range column `c` that contains an `Empty` cell, `ApplyMoveToBoard`
returns a nil error, and the resulting board is the input board with the cell
`(r, c)` set to `playerId`, where `r` is the largest row index whose cell in column
`c` was `Empty`; every other cell is unchanged. -/
theorem applyMove_lowest_empty (b : Board) (c : Fin NumColumns) (playerId : Int)
    (h : ∃ r : Fin NumRows, b r c = Empty) :
    ∃ (r : Fin NumRows) (b' : Board),
      b r c = Empty ∧ (∀ r' : Fin NumRows, r < r' → b r' c ≠ Empty) ∧
      ApplyMoveToBoard c playerId b = some (b', none) ∧
      b' r c = playerId ∧
      ∀ (i : Fin NumRows) (j : Fin NumColumns), (i ≠ r ∨ j ≠ c) → b' i j = b i j := by
  obtain ⟨r, hr, hlow⟩ := exists_lowest_empty b c h
  exact ⟨r, b.update r c playerId, hr, hlow, applyMove_place b c playerId r hr hlow,
    Board.update_same b r c playerId, Board.update_other b r c playerId⟩

theorem applyMove_lowest_empty_witness :
    (∃ r : Fin NumRows, InitializeBoard r 3 = Empty) ∧
    ∃ (r : Fin NumRows) (b' : Board),
      InitializeBoard r 3 = Empty ∧ (∀ r' : Fin NumRows, r < r' → InitializeBoard r' 3 ≠ Empty) ∧
      ApplyMoveToBoard ((3 : Fin NumColumns) : Nat) 1 InitializeBoard = some (b', none) ∧
      b' r 3 = 1 ∧
      ∀ (i : Fin NumRows) (j : Fin NumColumns), (i ≠ r ∨ j ≠ 3) → b' i j = InitializeBoard i j :=
  ⟨⟨0, rfl⟩, applyMove_lowest_empty InitializeBoard 3 1 ⟨0, rfl⟩⟩

/-- C3: for a column `c < 0` or `c ≥ NumColumns`, `ApplyMoveToBoard` returns the
non-nil error "Move c is invalid" and leaves the board unchanged in every cell. -/
theorem applyMove_invalid_column (b : Board) (playerId c : Int)
    (h : c < 0 ∨ c ≥ NumColumns) :
    ApplyMoveToBoard c playerId b = some (b, some ("Move " ++ toString c ++ " is invalid")) :=
  applyMove_invalid b c playerId h

theorem applyMove_invalid_column_witness :
    (((-1 : Int) < 0 ∨ (-1 : Int) ≥ NumColumns) ∧
      ApplyMoveToBoard (-1) 1 InitializeBoard =
        some (InitializeBoard, some "Move -1 is invalid")) ∧
    (((7 : Int) < 0 ∨ (7 : Int) ≥ NumColumns) ∧
      ApplyMoveToBoard 7 1 InitializeBoard =
        some (InitializeBoard, some "Move 7 is invalid")) :=
  ⟨⟨by decide, applyMove_invalid_column InitializeBoard 1 (-1) (by decide)⟩,
    ⟨by decide, applyMove_invalid_column InitializeBoard 1 7 (by decide)⟩⟩

/-- C4: for an in-range column `c`, `ApplyMoveToBoard` returns the column-full error
"No room in column c for a move" if and only if no cell of column `c` is `Empty`, and
whenever it returns that error the board is unmodified. -/
theorem applyMove_column_full_iff (b : Board) (c : Fin NumColumns) (playerId : Int) :
    ((∃ b' : Board, ApplyMoveToBoard c playerId b =
        some (b', some ("No room in column " ++ toString (c.val : Int) ++ " for a move"))) ↔
      ∀ r : Fin NumRows, b r c ≠ Empty) ∧
    (∀ b' : Board, ApplyMoveToBoard c playerId b =
        some (b', some ("No room in column " ++ toString (c.val : Int) ++ " for a move")) →
      b' = b) := by
  by_cases hfull : ∀ r : Fin NumRows, b r c ≠ 0
  · have hf := applyMove_full b c playerId hfull
    refine ⟨⟨fun _ => hfull, fun _ => ⟨b, hf⟩⟩, fun b' hb' => ?_⟩
    rw [hf] at hb'
    simp only [Option.some.injEq, Prod.mk.injEq] at hb'
    exact hb'.1.symm
  · have hex : ∃ r : Fin NumRows, b r c = 0 := by
      push_neg at hfull
      exact hfull
    obtain ⟨r, hr, hlow⟩ := exists_lowest_empty b c hex
    have hp := applyMove_place b c playerId r hr hlow
    refine ⟨⟨fun ⟨b', hb'⟩ => ?_, fun h => absurd h hfull⟩, fun b' hb' => ?_⟩
    · rw [hp] at hb'
      simp at hb'
    · rw [hp] at hb'
      simp at hb'

/-- C5 as stated fails: with `playerId = Empty` the call on column 0 of the empty
board succeeds, yet the resulting board differs from the input in no cell. -/
theorem applyMove_empty_player_counterexample :
    ¬ ((∃ b' : Board, ApplyMoveToBoard 0 Empty InitializeBoard = some (b', none) ∧
          (diffCells InitializeBoard b').card = 1) ∨
       (∃ e : String, ApplyMoveToBoard 0 Empty InitializeBoard = some (InitializeBoard, some e))) := by
  have hp := applyMove_place InitializeBoard 0 Empty 5 rfl (by decide)
  have hd := diffCells_update InitializeBoard 5 0 Empty
  rw [if_pos (show Empty = InitializeBoard 5 0 from rfl)] at hd
  simp only [Fin.val_zero, Nat.cast_zero] at hp
  rintro (⟨b', hb', hcard⟩ | ⟨e, he⟩)
  · rw [hp] at hb'
    simp only [Option.some.injEq, Prod.mk.injEq, and_true] at hb'
    subst hb'
    rw [hd] at hcard
    simp at hcard
  · rw [hp] at he
    simp at he

/-- C5, amended: every call either succeeds, writing `playerId` into one `Empty` cell
of the column and nothing else (so the result differs from the input in exactly
that cell when `playerId ≠ Empty`, and in no cell when `playerId = Empty`), or
fails with a non-nil error and the board identical to the input. -/
theorem applyMove_all_or_nothing (b : Board) (move playerId : Int) :
    (∃ (c : Fin NumColumns) (r : Fin NumRows), (c.val : Int) = move ∧ b r c = Empty ∧
      ApplyMoveToBoard move playerId b = some (b.update r c playerId, none) ∧
      diffCells b (b.update r c playerId) = (if playerId = Empty then ∅ else {(r, c)}) ∧
      (playerId ≠ Empty → (diffCells b (b.update r c playerId)).card = 1)) ∨
    (∃ e : String, ApplyMoveToBoard move playerId b = some (b, some e)) := by
  rcases applyMove_cases b move playerId with ⟨-, h⟩ | ⟨c, -, -, h⟩ | ⟨c, r, hc, hr, -, h⟩
  · exact Or.inr ⟨_, h⟩
  · exact Or.inr ⟨_, h⟩
  · have hd := diffCells_update b r c playerId
    rw [hr] at hd
    refine Or.inl ⟨c, r, hc, hr, h, hd, fun hne => ?_⟩
    rw [hd, if_neg hne]
    rfl

/-- C6: the gravity invariant holds of `InitializeBoard`, every call of
`ApplyMoveToBoard` (any column, any playerId, succeeding or failing) returns and
preserves it, and so it holds of every board reached from `InitializeBoard` by a
sequence of `ApplyMoveToBoard` calls. -/
theorem gravity_invariant :
    Gravity InitializeBoard ∧
    (∀ (b : Board) (move playerId : Int), Gravity b →
      ∃ b' e, ApplyMoveToBoard move playerId b = some (b', e) ∧ Gravity b') ∧
    (∀ moves : List (Int × Int),
      ∃ b, playMoves moves InitializeBoard = some b ∧ Gravity b) :=
  ⟨gravity_init, gravity_step, fun moves => gravity_playMoves moves InitializeBoard gravity_init⟩

/-- C7: every call of `ApplyMoveToBoard` returns, and every cell that was non-`Empty`
before the call holds exactly the same value after it. -/
theorem applyMove_keeps_nonempty (b : Board) (move playerId : Int) :
    ∃ b' e, ApplyMoveToBoard move playerId b = some (b', e) ∧
      ∀ (r : Fin NumRows) (c : Fin NumColumns), b r c ≠ Empty → b' r c = b r c := by
  rcases applyMove_cases b move playerId with ⟨-, h⟩ | ⟨c, -, -, h⟩ | ⟨c, r, -, hr, -, h⟩
  · exact ⟨b, _, h, fun _ _ _ => rfl⟩
  · exact ⟨b, _, h, fun _ _ _ => rfl⟩
  · refine ⟨_, _, h, fun i j hij => ?_⟩
    apply Board.update_other
    by_contra hcon
    push_neg at hcon
    obtain ⟨rfl, rfl⟩ := hcon
    exact hij hr

/-- C8: `IsBoardFull` returns, it returns `true` exactly when every cell of the top
row (row 0) is non-`Empty`, and two boards with the same top row give the same
result: rows 1..5 do not influence it. -/
theorem isBoardFull_iff_top_row (b : Board) :
    (IsBoardFull b = some true ↔ ∀ c : Fin NumColumns, b 0 c ≠ Empty) ∧
    (IsBoardFull b = some false ↔ ∃ c : Fin NumColumns, b 0 c = Empty) ∧
    (∀ b' : Board, (∀ c : Fin NumColumns, b' 0 c = b 0 c) → IsBoardFull b' = IsBoardFull b) := by
  have hd := IsBoardFull_decides b
  refine ⟨hd.eq_true_iff, ?_, fun b' hsame => ?_⟩
  · rw [hd.eq_false_iff]
    push_neg
    exact Iff.rfl
  · have hd' := IsBoardFull_decides b'
    by_cases hfull : ∀ c : Fin NumColumns, b 0 c ≠ Empty
    · rw [hd.1 hfull, hd'.1 (fun c => by rw [hsame c]; exact hfull c)]
    · rw [hd.2 hfull, hd'.2 (fun h => hfull (fun c => by rw [← hsame c]; exact h c))]

/-- C9: on a board satisfying the gravity invariant, `IsBoardFull` is `true` exactly
when all 42 cells are non-`Empty` (and `false` exactly when some cell is `Empty`);
the same holds of every board reached from it by `ApplyMoveToBoard` calls. -/
theorem isBoardFull_iff_all_cells (b : Board) (hg : Gravity b) :
    (IsBoardFull b = some true ↔ ∀ (r : Fin NumRows) (c : Fin NumColumns), b r c ≠ Empty) ∧
    (IsBoardFull b = some false ↔ ∃ (r : Fin NumRows) (c : Fin NumColumns), b r c = Empty) ∧
    (∀ moves : List (Int × Int), ∃ b' : Board, playMoves moves b = some b' ∧
      (IsBoardFull b' = some true ↔
        ∀ (r : Fin NumRows) (c : Fin NumColumns), b' r c ≠ Empty)) := by
  have key : ∀ b : Board, Gravity b →
      ((∀ c : Fin NumColumns, b 0 c ≠ Empty) ↔
        ∀ (r : Fin NumRows) (c : Fin NumColumns), b r c ≠ Empty) :=
    fun b hg => ⟨gravity_top_full b hg, fun h c => h 0 c⟩
  have hd := IsBoardFull_decides b
  refine ⟨?_, ?_, fun moves => ?_⟩
  · rw [hd.eq_true_iff, key b hg]
  · rw [hd.eq_false_iff, key b hg]
    push_neg
    exact Iff.rfl
  · obtain ⟨b', hb', hg'⟩ := gravity_playMoves moves b hg
    refine ⟨b', hb', ?_⟩
    rw [(IsBoardFull_decides b').eq_true_iff, key b' hg']

theorem isBoardFull_iff_all_cells_witness :
    Gravity InitializeBoard ∧
    ((IsBoardFull InitializeBoard = some true ↔
        ∀ (r : Fin NumRows) (c : Fin NumColumns), InitializeBoard r c ≠ Empty) ∧
    (IsBoardFull InitializeBoard = some false ↔
        ∃ (r : Fin NumRows) (c : Fin NumColumns), InitializeBoard r c = Empty) ∧
    (∀ moves : List (Int × Int), ∃ b' : Board, playMoves moves InitializeBoard = some b' ∧
      (IsBoardFull b' = some true ↔
        ∀ (r : Fin NumRows) (c : Fin NumColumns), b' r c ≠ Empty))) :=
  ⟨by decide, isBoardFull_iff_all_cells InitializeBoard (by decide)⟩

/-- C10 as stated fails: on the board whose top row alone is filled, `IsBoardFull`
is `true` although 35 cells are `Empty`. -/
theorem isBoardFull_topRowOnly_counterexample :
    ¬ (IsBoardFull topRowOnly = some true ↔
      ∀ (r : Fin NumRows) (c : Fin NumColumns), topRowOnly r c ≠ Empty) := by
  intro h
  have ht : IsBoardFull topRowOnly = some true := by decide
  exact h.1 ht 1 0 (by decide)

/-- C10, amended: for every board, if all 42 cells are non-`Empty` then `IsBoardFull`
is `true`; conversely `IsBoardFull = true` gives only that the 7 cells of the top row
are non-`Empty`, and gives all 42 cells when the board satisfies the gravity
invariant. -/
theorem isBoardFull_of_all_cells (b : Board) :
    ((∀ (r : Fin NumRows) (c : Fin NumColumns), b r c ≠ Empty) → IsBoardFull b = some true) ∧
    (IsBoardFull b = some true → ∀ c : Fin NumColumns, b 0 c ≠ Empty) ∧
    (Gravity b → IsBoardFull b = some true →
      ∀ (r : Fin NumRows) (c : Fin NumColumns), b r c ≠ Empty) := by
  have hd := IsBoardFull_decides b
  refine ⟨fun h => hd.1 (fun c => h 0 c), hd.eq_true_iff.1, fun hg ht => ?_⟩
  exact gravity_top_full b hg (hd.eq_true_iff.1 ht)

/-! ## Filling one column -/

theorem stacked_cell (c : Fin NumColumns) (p : Nat → Int) (k : Nat) (r : Fin NumRows)
    (j : Fin NumColumns) :
    stacked c p k r j = if j = c ∧ 6 - k ≤ r.val then p (5 - r.val) else 0 :=
  rfl

theorem stacked_zero (c : Fin NumColumns) (p : Nat → Int) : stacked c p 0 = InitializeBoard := by
  funext r j
  have hr : r.val < 6 := r.isLt
  rw [stacked_cell, if_neg]
  · rfl
  · rintro ⟨-, h⟩
    omega

theorem stacked_succ (c : Fin NumColumns) (p : Nat → Int) (k : Nat) (hk : k < 6)
    (r0 : Fin NumRows) (h0 : r0.val = 5 - k) :
    (stacked c p k).update r0 c (p k) = stacked c p (k + 1) := by
  funext r j
  have hr : r.val < 6 := r.isLt
  unfold Board.update
  rw [stacked_cell, stacked_cell]
  by_cases hj : j = c
  · by_cases h1 : r.val = 5 - k
    · have hr' : r = r0 := Fin.ext (h1.trans h0.symm)
      rw [if_pos ⟨hr', hj⟩, if_pos ⟨hj, by omega⟩, h1]
      congr 1
      omega
    · have hr' : ¬ (r = r0 ∧ j = c) := by
        rintro ⟨h, -⟩
        exact h1 (by rw [h, h0])
      rw [if_neg hr']
      by_cases h2 : 6 - k ≤ r.val
      · rw [if_pos ⟨hj, h2⟩, if_pos ⟨hj, by omega⟩]
      · rw [if_neg (fun h => h2 h.2), if_neg (fun h => h2 (by have := h.2; omega))]
  · rw [if_neg (fun h => hj h.2), if_neg (fun h => hj h.1), if_neg (fun h => hj h.1)]

theorem stacked_apply (c : Fin NumColumns) (p : Nat → Int) (k : Nat)
    (hp : ∀ i, i < k → p i ≠ 0) (hk : k < 6) :
    ApplyMoveToBoard c (p k) (stacked c p k) = some (stacked c p (k + 1), none) := by
  have h5 : 5 - k < NumRows := by
    show 5 - k < 6
    omega
  have hplace := applyMove_place (stacked c p k) c (p k) ⟨5 - k, h5⟩
    (by
      rw [stacked_cell, if_neg]
      rintro ⟨-, h⟩
      simp only at h
      omega)
    (by
      intro r' hlt
      have hr' : r'.val < 6 := r'.isLt
      rw [Fin.lt_def] at hlt
      simp only at hlt
      rw [stacked_cell, if_pos ⟨rfl, by omega⟩]
      exact hp _ (by omega))
  rw [hplace, stacked_succ c p k hk ⟨5 - k, h5⟩ rfl]

theorem stacked_full (c : Fin NumColumns) (p : Nat → Int) (hp : ∀ i, i < 6 → p i ≠ 0)
    (playerId : Int) :
    ApplyMoveToBoard c playerId (stacked c p 6) =
      some (stacked c p 6,
        some ("No room in column " ++ toString (c.val : Int) ++ " for a move")) := by
  apply applyMove_full
  intro r
  have hr : r.val < 6 := r.isLt
  rw [stacked_cell, if_pos ⟨rfl, by omega⟩]
  exact hp _ (by omega)

/-- C11: starting from `InitializeBoard`, `NumRows` calls on an in-range column `c` with
non-`Empty` pieces `p 0, …, p 5` all succeed, the call with piece `p k` turning the
board `stacked c p k` into `stacked c p (k+1)`: on that board piece `p i` of every
call `i ≤ k` so far sits in row `NumRows - 1 - i` of column `c`, the rows above are
`Empty`, and every cell outside column `c` is `Empty`.  The next call on column `c`
fails with the column-full error and changes nothing. -/
theorem column_fills_bottom_up (c : Fin NumColumns) (p : Nat → Int)
    (hp : ∀ i, i < NumRows + 1 → p i ≠ Empty) :
    stacked c p 0 = InitializeBoard ∧
    (∀ k : Nat, k < NumRows →
      ApplyMoveToBoard c (p k) (stacked c p k) = some (stacked c p (k + 1), none) ∧
      (∀ (r : Fin NumRows) (i : Nat), i ≤ k → r.val + i + 1 = NumRows →
        stacked c p (k + 1) r c = p i) ∧
      (∀ r : Fin NumRows, r.val + k + 1 < NumRows → stacked c p (k + 1) r c = Empty) ∧
      (∀ (r : Fin NumRows) (j : Fin NumColumns), j ≠ c → stacked c p (k + 1) r j = Empty)) ∧
    ApplyMoveToBoard c (p NumRows) (stacked c p NumRows) =
      some (stacked c p NumRows,
        some ("No room in column " ++ toString (c.val : Int) ++ " for a move")) := by
  have hp7 : ∀ i, i < 7 → p i ≠ 0 := hp
  refine ⟨stacked_zero c p, fun k hk => ?_, stacked_full c p (fun i hi => hp7 i (by omega)) _⟩
  have hk6 : k < 6 := hk
  refine ⟨stacked_apply c p k (fun i hi => hp7 i (by omega)) hk6, ?_, ?_, ?_⟩
  · intro r i hi hr
    have hr6 : r.val + i + 1 = 6 := hr
    rw [stacked_cell, if_pos ⟨rfl, by omega⟩]
    congr 1
    omega
  · intro r hr
    have hr6 : r.val + k + 1 < 6 := hr
    rw [stacked_cell, if_neg]
    rintro ⟨-, h⟩
    omega
  · intro r j hj
    rw [stacked_cell, if_neg (fun h => hj h.1)]

theorem column_fills_bottom_up_witness :
    (∀ i, i < NumRows + 1 → (fun i : Nat => (i : Int) + 1) i ≠ Empty) ∧
    (stacked 3 (fun i : Nat => (i : Int) + 1) 0 = InitializeBoard ∧
    (∀ k : Nat, k < NumRows →
      ApplyMoveToBoard ((3 : Fin NumColumns) : Nat) ((k : Int) + 1)
          (stacked 3 (fun i : Nat => (i : Int) + 1) k) =
        some (stacked 3 (fun i : Nat => (i : Int) + 1) (k + 1), none) ∧
      (∀ (r : Fin NumRows) (i : Nat), i ≤ k → r.val + i + 1 = NumRows →
        stacked 3 (fun i : Nat => (i : Int) + 1) (k + 1) r 3 = (i : Int) + 1) ∧
      (∀ r : Fin NumRows, r.val + k + 1 < NumRows →
        stacked 3 (fun i : Nat => (i : Int) + 1) (k + 1) r 3 = Empty) ∧
      (∀ (r : Fin NumRows) (j : Fin NumColumns), j ≠ 3 →
        stacked 3 (fun i : Nat => (i : Int) + 1) (k + 1) r j = Empty)) ∧
    ApplyMoveToBoard ((3 : Fin NumColumns) : Nat) ((NumRows : Nat) + 1)
        (stacked 3 (fun i : Nat => (i : Int) + 1) NumRows) =
      some (stacked 3 (fun i : Nat => (i : Int) + 1) NumRows,
        some "No room in column 3 for a move")) :=
  ⟨fun i _ => by show (i : Int) + 1 ≠ 0; omega,
    column_fills_bottom_up 3 (fun i : Nat => (i : Int) + 1)
      (fun i _ => by show (i : Int) + 1 ≠ 0; omega)⟩

/-! ## Stacking one color in one column -/

theorem Board.get_eq_some (b : Board) (r c v : Int) (h : b.get r c = some v) :
    ∃ (i : Fin NumRows) (j : Fin NumColumns), (i.val : Int) = r ∧ (j.val : Int) = c ∧ b i j = v := by
  obtain ⟨h1, h2, h3, h4⟩ := Board.get_inRange b r c v h
  have hi : r.toNat < NumRows := by
    show r.toNat < 6
    omega
  have hj : c.toNat < NumColumns := by
    show c.toNat < 7
    omega
  have hr : ((r.toNat : Nat) : Int) = r := Int.toNat_of_nonneg h1
  have hc : ((c.toNat : Nat) : Int) = c := Int.toNat_of_nonneg h3
  refine ⟨⟨r.toNat, hi⟩, ⟨c.toNat, hj⟩, hr, hc, ?_⟩
  have hg := Board.get_fin b ⟨r.toNat, hi⟩ ⟨c.toNat, hj⟩
  simp only at hg
  rw [hr, hc, h] at hg
  exact (Option.some.inj hg).symm

theorem playMoves_stacked (c : Fin NumColumns) (p : Int) (hp : p ≠ 0) (n k : Nat)
    (h : k + n ≤ 6) :
    playMoves (List.replicate n ((c.val : Int), p)) (stacked c (fun _ => p) k) =
      some (stacked c (fun _ => p) (k + n)) := by
  induction n generalizing k with
  | zero => rfl
  | succ n ih =>
    rw [List.replicate_succ, playMoves]
    have hstep := stacked_apply c (fun _ => p) k (fun _ _ => hp) (by omega)
    simp only at hstep
    rw [hstep, Option.some_bind]
    have hrest := ih (k + 1) (by omega)
    rw [hrest, show k + 1 + n = k + (n + 1) by omega]

theorem stacked_get (c : Fin NumColumns) (p : Int) (k : Nat) (r j v : Int) (hv : v ≠ 0)
    (h : (stacked c (fun _ => p) k).get r j = some v) :
    j = c.val ∧ 6 - (k : Int) ≤ r ∧ r < 6 ∧ v = p := by
  obtain ⟨i, j', hi, hj, hcell⟩ := Board.get_eq_some _ r j v h
  have hi6 : i.val < 6 := i.isLt
  rw [stacked_cell] at hcell
  by_cases hc : j' = c ∧ 6 - k ≤ i.val
  · rw [if_pos hc] at hcell
    refine ⟨by rw [← hj, hc.1], ?_, ?_, hcell.symm⟩
    · have := hc.2
      omega
    · omega
  · rw [if_neg hc] at hcell
    exact absurd hcell.symm hv

theorem fourInARow_stacked (c : Fin NumColumns) (p : Int) (hp : p ≠ 0) (k : Nat) (hk : k ≤ 6) :
    FourInARow (stacked c (fun _ => p) k) ↔ 4 ≤ k := by
  constructor
  · rintro ⟨row, column, d, hd, color, hcolor, hall⟩
    have h0 := stacked_get c p k _ _ color hcolor (hall 0 (by decide))
    have h1 := stacked_get c p k _ _ color hcolor (hall 1 (by decide))
    have h3 := stacked_get c p k _ _ color hcolor (hall 3 (by decide))
    simp only [Nat.cast_zero, zero_mul, add_zero, Nat.cast_one, one_mul, Nat.cast_ofNat] at h0 h1 h3
    simp only [axes, List.mem_cons, List.mem_singleton, List.not_mem_nil, or_false] at hd
    rcases hd with rfl | rfl | rfl | rfl
    · simp only at h0 h3
      omega
    · simp only at h0 h1
      omega
    · simp only at h0 h1
      omega
    · simp only at h0 h1
      omega
  · intro h4
    refine ⟨2, c.val, (1, 0), by simp [axes], p, hp, fun i hi => ?_⟩
    have hi4 : i < 4 := hi
    have hrow : 2 + i < NumRows := by
      show 2 + i < 6
      omega
    have hg := Board.get_fin (stacked c (fun _ => p) k) ⟨2 + i, hrow⟩ c
    rw [stacked_cell, if_pos ⟨rfl, by simp only; omega⟩] at hg
    simp only [Nat.cast_add, Nat.cast_ofNat] at hg
    simp only [mul_one, mul_zero, add_zero]
    exact hg

/-- C12: for an in-range column `c`, a non-`Empty` player id `p` and `0 ≤ k ≤ NumRows`,
the `k` calls `ApplyMoveToBoard(c, p)` from `InitializeBoard` all return, and on the
resulting board `GameOver` is `true` exactly when `k ≥ 4` and `false` exactly when
`k < 4`. -/
theorem gameOver_stacked_iff (c : Fin NumColumns) (p : Int) (k : Nat) (hp : p ≠ Empty)
    (hk : k ≤ NumRows) :
    ∃ b : Board, playMoves (List.replicate k ((c.val : Int), p)) InitializeBoard = some b ∧
      (GameOver b = some true ↔ 4 ≤ k) ∧ (GameOver b = some false ↔ k < 4) := by
  have hplay := playMoves_stacked c p hp k 0 (by have : k ≤ 6 := hk; omega)
  rw [stacked_zero, Nat.zero_add] at hplay
  have hd := GameOver_decides (stacked c (fun _ => p) k)
  rw [← fourInARow_iff_scanned, fourInARow_stacked c p hp k hk] at hd
  refine ⟨_, hplay, hd.eq_true_iff, ?_⟩
  rw [hd.eq_false_iff, Nat.not_le]

theorem gameOver_stacked_iff_witness :
    ((1 : Int) ≠ Empty ∧ 4 ≤ NumRows ∧
      ∃ b : Board, playMoves (List.replicate 4 ((((3 : Fin NumColumns) : Nat) : Int), 1))
          InitializeBoard = some b ∧
        (GameOver b = some true ↔ 4 ≤ 4) ∧ (GameOver b = some false ↔ 4 < 4)) ∧
    ((1 : Int) ≠ Empty ∧ 3 ≤ NumRows ∧
      ∃ b : Board, playMoves (List.replicate 3 ((((3 : Fin NumColumns) : Nat) : Int), 1))
          InitializeBoard = some b ∧
        (GameOver b = some true ↔ 4 ≤ 3) ∧ (GameOver b = some false ↔ 3 < 4)) :=
  ⟨⟨by decide, by decide, gameOver_stacked_iff 3 1 4 (by decide) (by decide)⟩,
    ⟨by decide, by decide, gameOver_stacked_iff 3 1 3 (by decide) (by decide)⟩⟩

/-! ## The horizontal scan -/

theorem lineAt_horizontal_start (b : Board) (row column : Int) (h : lineAt b row column 0 1) :
    ∃ (r : Fin NumRows) (c : Nat), (r.val : Int) = row ∧ (c : Int) = column ∧
      c < NumConsecutive := by
  obtain ⟨h0, h3⟩ := lineAt_bounds b row column 0 1 h
  simp only [mul_zero, add_zero, mul_one] at h3
  have hr : row.toNat < NumRows := by
    show row.toNat < 6
    omega
  refine ⟨⟨row.toNat, hr⟩, column.toNat, Int.toNat_of_nonneg h0.1,
    Int.toNat_of_nonneg h0.2.2.1, ?_⟩
  show column.toNat < 4
  omega

theorem checkHorizontalWin_row_decides (b : Board) (row : Fin NumRows) :
    Decides (checkHorizontalWin row b) (∃ column : Int, lineAt b row column 0 1) := by
  have hr : row.val < 6 := row.isLt
  have hd := checkHorizontalWin_decides b row ⟨by omega, by omega⟩
  have hiff : (∃ column : Nat, column < NumConsecutive ∧ lineAt b row column 0 1) ↔
      ∃ column : Int, lineAt b row column 0 1 := by
    constructor
    · rintro ⟨column, -, h⟩
      exact ⟨column, h⟩
    · rintro ⟨column, h⟩
      obtain ⟨-, c, -, hc, hlt⟩ := lineAt_horizontal_start b row column h
      exact ⟨c, hlt, by rw [hc]; exact h⟩
  rw [hiff] at hd
  exact hd

/-- C13 as stated fails: no board has a row holding four horizontally consecutive
in-board cells of one non-`Empty` color on which `checkHorizontalWin` returns
`false`. -/
theorem horizontal_gap_counterexample :
    ¬ ∃ (b : Board) (row column : Int),
      lineAt b row column 0 1 ∧ checkHorizontalWin row b = some false := by
  rintro ⟨b, row, column, hline, hfalse⟩
  obtain ⟨r, -, hr, -, -⟩ := lineAt_horizontal_start b row column hline
  have hd := checkHorizontalWin_row_decides b r
  rw [hr] at hd
  have ht := hd.1 ⟨column, hline⟩
  rw [hfalse] at ht
  cases ht

/-- C13, amended: the horizontal scan has no coverage gap on the 7-column board.  The
starting columns `0..NumConsecutive-1` that `checkHorizontalWin` tries are exactly
the starts of the in-board windows, `0..NumColumns-NumConsecutive`, so for every
board and every row `checkHorizontalWin` returns `true` exactly when the row holds
four horizontally consecutive in-board cells of one non-`Empty` color, and `false`
exactly when it holds none. -/
theorem checkHorizontalWin_complete (b : Board) (row : Fin NumRows) :
    (checkHorizontalWin row b = some true ↔ ∃ column : Int, lineAt b row column 0 1) ∧
    (checkHorizontalWin row b = some false ↔ ¬ ∃ column : Int, lineAt b row column 0 1) ∧
    (∀ column : Int, (0 ≤ column ∧ column < NumConsecutive) ↔
      (0 ≤ column ∧ column + NumConsecutive ≤ NumColumns)) := by
  have hd := checkHorizontalWin_row_decides b row
  refine ⟨hd.eq_true_iff, hd.eq_false_iff, fun column => ?_⟩
  show (0 ≤ column ∧ column < 4) ↔ (0 ≤ column ∧ column + 4 ≤ 7)
  omega

/-! ## Loops that update their state -/

theorem forIn_list_inv {σ : Type} (body : Nat → σ → Option (ForInStep σ))
    (Inv : Nat → σ → Prop) (n lo : Nat) (s0 : σ) (h0 : Inv lo s0)
    (hstep : ∀ x s, lo ≤ x → x < lo + n → Inv x s →
      ∃ s', body x s = some (ForInStep.yield s') ∧ Inv (x + 1) s') :
    ∃ s', forIn (List.range' lo n) s0 body = some s' ∧ Inv (lo + n) s' := by
  induction n generalizing lo s0 with
  | zero => exact ⟨s0, rfl, h0⟩
  | succ n ih =>
    obtain ⟨s1, hb, h1⟩ := hstep lo s0 (le_refl _) (by omega) h0
    obtain ⟨s2, hf, h2⟩ := ih (lo + 1) s1 h1
      (fun x s hx1 hx2 hinv => hstep x s (by omega) (by omega) hinv)
    refine ⟨s2, ?_, by rw [show lo + (n + 1) = lo + 1 + n by omega]; exact h2⟩
    rw [List.range'_succ, List.forIn_cons, hb]
    exact hf

/-- A counting loop whose body never returns early establishes at its end the
invariant that every iteration carries one step further. -/
theorem forIn_range_inv {σ : Type} (body : Nat → σ → Option (ForInStep σ))
    (Inv : Nat → σ → Prop) (lo hi : Nat) (hle : lo ≤ hi) (s0 : σ) (h0 : Inv lo s0)
    (hstep : ∀ x s, lo ≤ x → x < hi → Inv x s →
      ∃ s', body x s = some (ForInStep.yield s') ∧ Inv (x + 1) s') :
    ∃ s', forIn [lo:hi] s0 body = some s' ∧ Inv hi s' := by
  rw [Std.Range.forIn_eq_forIn_range', Std.Range.numElems_step_1]
  have key := forIn_list_inv body Inv (hi - lo) lo s0 h0
    (fun x s h1 h2 hinv => hstep x s h1 (by omega) hinv)
  rw [show lo + (hi - lo) = hi by omega] at key
  exact key

theorem forIn_list_fail {σ : Type} (body : Nat → σ → Option (ForInStep σ)) (xs : List Nat)
    (s0 : σ)
    (hstep : ∀ x ∈ xs, ∀ s, body x s = none ∨ ∃ s', body x s = some (ForInStep.yield s'))
    (hbad : ∃ x ∈ xs, ∀ s, body x s = none) :
    forIn xs s0 body = none := by
  induction xs generalizing s0 with
  | nil =>
    obtain ⟨x, hx, -⟩ := hbad
    cases hx
  | cons y ys ih =>
    rw [List.forIn_cons]
    rcases hstep y (List.mem_cons_self y ys) s0 with hn | ⟨s', hs'⟩
    · rw [hn]
      rfl
    · rw [hs']
      obtain ⟨x, hx, hxbad⟩ := hbad
      rcases List.mem_cons.1 hx with rfl | hx'
      · rw [hxbad s0] at hs'
        cases hs'
      · exact ih s' (fun z hz => hstep z (List.mem_cons_of_mem y hz)) ⟨x, hx', hxbad⟩

/-- A counting loop whose body never returns early and panics on some index,
whatever the state, panics. -/
theorem forIn_range_fail {σ : Type} (body : Nat → σ → Option (ForInStep σ)) (lo hi : Nat)
    (s0 : σ)
    (hstep : ∀ x, lo ≤ x → x < hi → ∀ s,
      body x s = none ∨ ∃ s', body x s = some (ForInStep.yield s'))
    (hbad : ∃ x, lo ≤ x ∧ x < hi ∧ ∀ s, body x s = none) :
    forIn [lo:hi] s0 body = none := by
  rw [Std.Range.forIn_eq_forIn_range', Std.Range.numElems_step_1]
  have key := forIn_list_fail body (List.range' lo (hi - lo)) s0
    (fun x hx => hstep x (List.mem_range'_1.1 hx).1 (by have := (List.mem_range'_1.1 hx).2; omega))
    (by
      obtain ⟨x, h1, h2, h3⟩ := hbad
      exact ⟨x, by rw [List.mem_range'_1]; omega, h3⟩)
  exact key

theorem forIn_range_inv_bind {σ τ : Type} (Inv : Nat → σ → Prop) (P : τ → Prop) (lo hi : Nat)
    (hle : lo ≤ hi) {s0 : σ} {body : Nat → σ → Option (ForInStep σ)} {k : σ → τ}
    (h0 : Inv lo s0)
    (hstep : ∀ x s, lo ≤ x → x < hi → Inv x s →
      ∃ s', body x s = some (ForInStep.yield s') ∧ Inv (x + 1) s')
    (hP : ∀ s, Inv hi s → P (k s)) :
    ∃ t, ((forIn [lo:hi] s0 body).bind fun r => some (k r)) = some t ∧ P t := by
  obtain ⟨s', hs', hinv⟩ := forIn_range_inv body Inv lo hi hle s0 h0 hstep
  exact ⟨k s', by rw [hs']; rfl, hP s' hinv⟩

theorem exists_yield_of {σ : Type} {o : Option (ForInStep σ)} {Q : σ → Prop}
    (h : ∃ t, o = some t ∧ ∃ s', t = ForInStep.yield s' ∧ Q s') :
    ∃ s', o = some (ForInStep.yield s') ∧ Q s' := by
  obtain ⟨t, ht, s', hs', hq⟩ := h
  exact ⟨s', by rw [ht, hs'], hq⟩

theorem bind_yield_cases {σ : Type} (o : Option σ) :
    (o.bind fun r => some (ForInStep.yield r)) = none ∨
      ∃ s', (o.bind fun r => some (ForInStep.yield r)) = some (ForInStep.yield s') := by
  cases o with
  | none => exact Or.inl rfl
  | some t => exact Or.inr ⟨t, rfl⟩

/-! ## `GetStringBoard` -/

theorem StringBoard.set_nat (s : StringBoard) (x y : Nat) (hx : x < 6) (hy : y < 7)
    (value : String) :
    s.set (x : Int) (y : Int) value =
      some (fun r c => if r.val = x ∧ c.val = y then value else s r c) := by
  have h : 0 ≤ (x : Int) ∧ (x : Int) < (NumRows : Nat) ∧
      0 ≤ (y : Int) ∧ (y : Int) < (NumColumns : Nat) := by
    refine ⟨by omega, ?_, by omega, ?_⟩
    · show (x : Int) < (6 : Nat)
      omega
    · show (y : Int) < (7 : Nat)
      omega
  unfold StringBoard.set
  rw [if_pos h]
  simp only [Nat.cast_inj]

theorem getStringBoard_cell (Red Black : Int) (b : Board) (x y : Nat) (hx : x < 6) (hy : y < 7)
    (s : StringBoard) :
    ((b.get ↑x ↑y).bind fun v =>
      if v = Empty then (s.set (↑x) (↑y) "").bind fun r => some (ForInStep.yield r)
      else
        (b.get ↑x ↑y).bind fun v =>
          if v = Red then (s.set (↑x) (↑y) "R").bind fun r => some (ForInStep.yield r)
          else
            (b.get ↑x ↑y).bind fun v =>
              if v = Black then (s.set (↑x) (↑y) "B").bind fun r => some (ForInStep.yield r)
              else (none : Option PUnit).bind fun _ => some (ForInStep.yield s)) =
      (symbolOf Red Black (b ⟨x, hx⟩ ⟨y, hy⟩)).bind fun value =>
        some (ForInStep.yield (fun r c => if r.val = x ∧ c.val = y then value else s r c)) := by
  have hg := Board.get_fin b ⟨x, hx⟩ ⟨y, hy⟩
  simp only at hg
  rw [hg]
  simp only [Option.some_bind, StringBoard.set_nat s x y hx hy]
  unfold symbolOf
  by_cases h0 : b ⟨x, hx⟩ ⟨y, hy⟩ = Empty
  · rw [if_pos h0, if_pos h0]
    rfl
  · rw [if_neg h0, if_neg h0]
    by_cases h1 : b ⟨x, hx⟩ ⟨y, hy⟩ = Red
    · rw [if_pos h1, if_pos h1]
      rfl
    · rw [if_neg h1, if_neg h1]
      by_cases h2 : b ⟨x, hx⟩ ⟨y, hy⟩ = Black
      · rw [if_pos h2, if_pos h2]
        rfl
      · rw [if_neg h2, if_neg h2]
        rfl

theorem getStringBoard_valid (Red Black : Int) (b : Board)
    (hvalid : ∀ (r : Fin NumRows) (c : Fin NumColumns),
      ∃ str, symbolOf Red Black (b r c) = some str) :
    ∃ g : StringBoard, GetStringBoard Red Black b = some g ∧
      ∀ (r : Fin NumRows) (c : Fin NumColumns), symbolOf Red Black (b r c) = some (g r c) := by
  unfold GetStringBoard
  simp only [Option.bind_eq_bind, Option.some_bind, Option.pure_def, bind_pure_comp]
  refine forIn_range_inv_bind
    (fun x (s : StringBoard) => ∀ (r : Fin NumRows) (c : Fin NumColumns), r.val < x →
      symbolOf Red Black (b r c) = some (s r c))
    (fun g : StringBoard => ∀ (r : Fin NumRows) (c : Fin NumColumns),
      symbolOf Red Black (b r c) = some (g r c))
    0 NumRows (Nat.zero_le _) (fun r c h => absurd h (Nat.not_lt_zero _)) ?_
    (fun s hs r c => hs r c r.isLt)
  intro x s _ hx hs
  have hx6 : x < 6 := hx
  apply exists_yield_of
  refine forIn_range_inv_bind
    (fun y (t : StringBoard) =>
      (∀ (r : Fin NumRows) (c : Fin NumColumns), r.val < x →
        symbolOf Red Black (b r c) = some (t r c)) ∧
      (∀ (r : Fin NumRows) (c : Fin NumColumns), r.val = x → c.val < y →
        symbolOf Red Black (b r c) = some (t r c)))
    _ 0 NumColumns (Nat.zero_le _) ⟨hs, fun r c _ h => absurd h (Nat.not_lt_zero _)⟩ ?_ ?_
  · intro y t _ hy ht
    have hy7 : y < 7 := hy
    rw [getStringBoard_cell Red Black b x y hx6 hy7 t]
    obtain ⟨str, hstr⟩ := hvalid ⟨x, hx6⟩ ⟨y, hy7⟩
    rw [hstr, Option.some_bind]
    refine ⟨_, rfl, ?_, ?_⟩
    · intro r c hr
      dsimp only
      rw [if_neg (fun h : r.val = x ∧ c.val = y => by have := h.1; omega)]
      exact ht.1 r c hr
    · intro r c hr hc
      dsimp only
      by_cases hcy : c.val = y
      · rw [if_pos ⟨hr, hcy⟩]
        have hr' : r = ⟨x, hx6⟩ := Fin.ext hr
        have hc' : c = ⟨y, hy7⟩ := Fin.ext hcy
        rw [hr', hc']
        exact hstr
      · rw [if_neg (fun h : r.val = x ∧ c.val = y => hcy h.2)]
        exact ht.2 r c hr (by omega)
  · intro s' hinv'
    refine ⟨s', rfl, fun r c hr => ?_⟩
    by_cases hrx : r.val = x
    · exact hinv'.2 r c hrx c.isLt
    · exact hinv'.1 r c (by omega)

theorem getStringBoard_invalid (Red Black : Int) (b : Board)
    (hbad : ∃ (r : Fin NumRows) (c : Fin NumColumns), symbolOf Red Black (b r c) = none) :
    GetStringBoard Red Black b = none := by
  obtain ⟨r0, c0, hbad⟩ := hbad
  unfold GetStringBoard
  simp only [Option.bind_eq_bind, Option.some_bind, Option.pure_def, bind_pure_comp]
  rw [forIn_range_fail _ 0 NumRows]
  · rfl
  · intro x _ _ s
    exact bind_yield_cases _
  · refine ⟨r0.val, Nat.zero_le _, r0.isLt, fun s => ?_⟩
    rw [forIn_range_fail _ 0 NumColumns]
    · rfl
    · intro y _ hy t
      have hy7 : y < 7 := hy
      rw [getStringBoard_cell Red Black b r0.val y r0.isLt hy7 t]
      cases symbolOf Red Black (b ⟨r0.val, r0.isLt⟩ ⟨y, hy7⟩) with
      | none => exact Or.inl rfl
      | some str => exact Or.inr ⟨_, rfl⟩
    · refine ⟨c0.val, Nat.zero_le _, c0.isLt, fun t => ?_⟩
      rw [getStringBoard_cell Red Black b r0.val c0.val r0.isLt c0.isLt t]
      simp only [Fin.eta]
      rw [hbad]
      rfl

theorem symbolOf_eq_none_iff (Red Black value : Int) :
    symbolOf Red Black value = none ↔ value ≠ Empty ∧ value ≠ Red ∧ value ≠ Black := by
  unfold symbolOf
  by_cases h0 : value = Empty
  · rw [if_pos h0]
    exact ⟨fun h => Option.noConfusion h, fun h => absurd h0 h.1⟩
  · rw [if_neg h0]
    by_cases h1 : value = Red
    · rw [if_pos h1]
      exact ⟨fun h => Option.noConfusion h, fun h => absurd h1 h.2.1⟩
    · rw [if_neg h1]
      by_cases h2 : value = Black
      · rw [if_pos h2]
        exact ⟨fun h => Option.noConfusion h, fun h => absurd h2 h.2.2⟩
      · rw [if_neg h2]
        exact ⟨fun _ => ⟨h0, h1, h2⟩, fun _ => rfl⟩

theorem symbolOf_isSome (Red Black value : Int)
    (h : value = Empty ∨ value = Red ∨ value = Black) :
    ∃ str, symbolOf Red Black value = some str := by
  cases hs : symbolOf Red Black value with
  | some str => exact ⟨str, rfl⟩
  | none =>
    obtain ⟨h0, h1, h2⟩ := (symbolOf_eq_none_iff Red Black value).1 hs
    rcases h with h | h | h
    · exact absurd h h0
    · exact absurd h h1
    · exact absurd h h2

/-- C14: when `Red` and `Black` are two distinct non-`Empty` constants and every cell
of the board is `Empty`, `Red` or `Black`, `GetStringBoard` returns (does not
abort) a grid whose cell `(r, c)` is `""` where the board holds `Empty`, `"R"` where
it holds `Red` and `"B"` where it holds `Black`; the empty board maps to the grid of
empty strings. -/
theorem getStringBoard_symbols (Red Black : Int) (b : Board)
    (hRed : Red ≠ Empty) (hBlack : Black ≠ Empty) (hne : Red ≠ Black)
    (hcells : ∀ (r : Fin NumRows) (c : Fin NumColumns),
      b r c = Empty ∨ b r c = Red ∨ b r c = Black) :
    (∃ g : StringBoard, GetStringBoard Red Black b = some g ∧
      ∀ (r : Fin NumRows) (c : Fin NumColumns),
        (b r c = Empty → g r c = "") ∧ (b r c = Red → g r c = "R") ∧
        (b r c = Black → g r c = "B")) ∧
    GetStringBoard Red Black InitializeBoard = some (fun _ _ => "") := by
  constructor
  · obtain ⟨g, hg, hsym⟩ := getStringBoard_valid Red Black b
      (fun r c => symbolOf_isSome Red Black (b r c) (hcells r c))
    refine ⟨g, hg, fun r c => ⟨fun h => ?_, fun h => ?_, fun h => ?_⟩⟩
    · have := hsym r c
      rw [h] at this
      exact (Option.some.inj this).symm
    · have := hsym r c
      rw [h] at this
      unfold symbolOf at this
      rw [if_neg hRed, if_pos rfl] at this
      exact (Option.some.inj this).symm
    · have := hsym r c
      rw [h] at this
      unfold symbolOf at this
      rw [if_neg hBlack, if_neg (fun h' => hne h'.symm), if_pos rfl] at this
      exact (Option.some.inj this).symm
  · obtain ⟨g, hg, hsym⟩ := getStringBoard_valid Red Black InitializeBoard
      (fun r c => ⟨"", rfl⟩)
    rw [hg]
    congr 1
    funext r c
    have := hsym r c
    exact (Option.some.inj this).symm

theorem getStringBoard_symbols_witness :
    ((1 : Int) ≠ Empty ∧ (2 : Int) ≠ Empty ∧ (1 : Int) ≠ 2 ∧
      ∀ (r : Fin NumRows) (c : Fin NumColumns),
        twoPieces r c = Empty ∨ twoPieces r c = 1 ∨ twoPieces r c = 2) ∧
    ((∃ g : StringBoard, GetStringBoard 1 2 twoPieces = some g ∧
      ∀ (r : Fin NumRows) (c : Fin NumColumns),
        (twoPieces r c = Empty → g r c = "") ∧ (twoPieces r c = 1 → g r c = "R") ∧
        (twoPieces r c = 2 → g r c = "B")) ∧
    GetStringBoard 1 2 InitializeBoard = some (fun _ _ => "")) :=
  ⟨⟨by decide, by decide, by decide, by decide⟩,
    getStringBoard_symbols 1 2 twoPieces (by decide) (by decide) (by decide) (by decide)⟩

/-- C15: `GetStringBoard` aborts exactly when some cell holds a value outside
`{Empty, Red, Black}`: on such a board it returns no grid, and on a board whose cells
all lie in that domain it returns one. -/
theorem getStringBoard_aborts_iff (Red Black : Int) (b : Board) :
    (GetStringBoard Red Black b = none ↔
      ∃ (r : Fin NumRows) (c : Fin NumColumns),
        b r c ≠ Empty ∧ b r c ≠ Red ∧ b r c ≠ Black) ∧
    ((∃ g : StringBoard, GetStringBoard Red Black b = some g) ↔
      ∀ (r : Fin NumRows) (c : Fin NumColumns),
        b r c = Empty ∨ b r c = Red ∨ b r c = Black) := by
  by_cases hbad : ∃ (r : Fin NumRows) (c : Fin NumColumns),
      b r c ≠ Empty ∧ b r c ≠ Red ∧ b r c ≠ Black
  · have hnone := getStringBoard_invalid Red Black b (by
      obtain ⟨r, c, h⟩ := hbad
      exact ⟨r, c, (symbolOf_eq_none_iff Red Black (b r c)).2 h⟩)
    refine ⟨⟨fun _ => hbad, fun _ => hnone⟩, ⟨fun ⟨g, hg⟩ => ?_, fun hall => ?_⟩⟩
    · rw [hnone] at hg
      cases hg
    · obtain ⟨r, c, h0, h1, h2⟩ := hbad
      rcases hall r c with h | h | h
      · exact absurd h h0
      · exact absurd h h1
      · exact absurd h h2
  · have hall : ∀ (r : Fin NumRows) (c : Fin NumColumns),
        b r c = Empty ∨ b r c = Red ∨ b r c = Black := by
      intro r c
      by_contra hcon
      push_neg at hcon
      exact hbad ⟨r, c, hcon⟩
    obtain ⟨g, hg, -⟩ := getStringBoard_valid Red Black b
      (fun r c => symbolOf_isSome Red Black (b r c) (hall r c))
    refine ⟨⟨fun hn => ?_, fun h => absurd h hbad⟩, ⟨fun _ => hall, fun _ => ⟨g, hg⟩⟩⟩
    rw [hg] at hn
    cases hn

/-! ## `GameOver` never indexes out of range -/

theorem Decides.returns {o : Option Bool} {P : Prop} (h : Decides o P) : ∃ v, o = some v := by
  by_cases hp : P
  · exact ⟨true, h.1 hp⟩
  · exact ⟨false, h.2 hp⟩

/-- C16: with the row and column ranges that `GameOver` passes, none of the four
scans reads outside the board: `checkVerticalWin` for a column in `[0, NumColumns)`,
`checkHorizontalWin` for a row in `[0, NumRows)`, `checkSoutheastDiagonalWin` for
row in `[0, 2]` and column in `[0, 3]`, and `checkSouthwestDiagonalWin` for row in
`[0, 2]` and column in `[3, 6]` all return a boolean, and so `GameOver` returns a
boolean on every board.  (A read outside the board makes the scan return nothing,
as `checkSouthwestDiagonalWin` does at column 2 of a board filled with one color.) -/
theorem gameOver_never_out_of_range (b : Board) :
    (∃ v : Bool, GameOver b = some v) ∧
    (∀ column : Fin NumColumns, ∃ v : Bool, checkVerticalWin column b = some v) ∧
    (∀ row : Fin NumRows, ∃ v : Bool, checkHorizontalWin row b = some v) ∧
    (∀ row column : Nat, row ≤ NumRows - NumConsecutive → column ≤ NumColumns - NumConsecutive →
      ∃ v : Bool, checkSoutheastDiagonalWin row column b = some v) ∧
    (∀ row column : Nat, row ≤ NumRows - NumConsecutive → NumColumns - NumConsecutive ≤ column →
      column < NumColumns → ∃ v : Bool, checkSouthwestDiagonalWin row column b = some v) ∧
    checkSouthwestDiagonalWin 0 2 fullOfOnes = none := by
  refine ⟨(GameOver_decides b).returns, fun column => ?_, fun row => ?_,
    fun row column hr hc => ?_, fun row column hr hc1 hc2 => ?_, by decide⟩
  · have hlt : column.val < 7 := column.isLt
    exact (checkVerticalWin_decides b column ⟨by omega, by omega⟩).returns
  · have hlt : row.val < 6 := row.isLt
    exact (checkHorizontalWin_decides b row ⟨by omega, by omega⟩).returns
  · have hr2 : row ≤ 2 := hr
    have hc3 : column ≤ 3 := hc
    exact (checkSoutheastDiagonalWin_decides b row column ⟨by omega, by omega⟩
      ⟨by omega, by omega⟩).returns
  · have hr2 : row ≤ 2 := hr
    have hc3 : 3 ≤ column := hc1
    have hc7 : column < 7 := hc2
    exact (checkSouthwestDiagonalWin_decides b row column ⟨by omega, by omega⟩
      ⟨by omega, by omega⟩).returns

/-! ## Wins survive moves -/

theorem fourInARow_of_keeps (b b' : Board)
    (hkeep : ∀ (r : Fin NumRows) (c : Fin NumColumns), b r c ≠ Empty → b' r c = b r c)
    (h : FourInARow b) : FourInARow b' := by
  obtain ⟨row, column, d, hd, color, hcolor, hall⟩ := h
  refine ⟨row, column, d, hd, color, hcolor, fun i hi => ?_⟩
  obtain ⟨r, c, hr, hc, hcell⟩ := Board.get_eq_some b _ _ color (hall i hi)
  have hg := Board.get_fin b' r c
  rw [hr, hc, hkeep r c (by rw [hcell]; exact hcolor), hcell] at hg
  exact hg

theorem applyMove_keeps (b : Board) (move playerId : Int) :
    ∃ b' e, ApplyMoveToBoard move playerId b = some (b', e) ∧
      ∀ (r : Fin NumRows) (c : Fin NumColumns), b r c ≠ Empty → b' r c = b r c := by
  rcases applyMove_cases b move playerId with ⟨-, h⟩ | ⟨c, -, -, h⟩ | ⟨c, r, -, hr, -, h⟩
  · exact ⟨b, _, h, fun _ _ _ => rfl⟩
  · exact ⟨b, _, h, fun _ _ _ => rfl⟩
  · refine ⟨_, _, h, fun i j hij => ?_⟩
    apply Board.update_other
    by_contra hcon
    push_neg at hcon
    obtain ⟨rfl, rfl⟩ := hcon
    exact hij hr

/-- C17: when `GameOver` is `true` on a board, every call of `ApplyMoveToBoard` (any
column, any playerId, succeeding or failing) returns a board on which `GameOver` is
still `true`. -/
theorem gameOver_monotone (b : Board) (move playerId : Int) (h : GameOver b = some true) :
    ∃ b' e, ApplyMoveToBoard move playerId b = some (b', e) ∧ GameOver b' = some true := by
  obtain ⟨b', e, happly, hkeep⟩ := applyMove_keeps b move playerId
  refine ⟨b', e, happly, ?_⟩
  have hd := GameOver_decides b
  have hd' := GameOver_decides b'
  rw [← fourInARow_iff_scanned] at hd hd'
  exact hd'.1 (fourInARow_of_keeps b b' hkeep (hd.eq_true_iff.1 h))

theorem gameOver_monotone_witness :
    GameOver topRowOnly = some true ∧
    ∃ b' e, ApplyMoveToBoard 3 2 topRowOnly = some (b', e) ∧ GameOver b' = some true :=
  ⟨by decide, gameOver_monotone topRowOnly 3 2 (by decide)⟩

/-! ## No legal move on a full board -/

theorem gravity_column_full_iff (b : Board) (hg : Gravity b) (c : Fin NumColumns) :
    (∀ r : Fin NumRows, b r c ≠ 0) ↔ b 0 c ≠ Empty := by
  constructor
  · intro h
    exact h 0
  · intro h r hr
    by_cases hr0 : r = 0
    · subst hr0
      exact h hr
    · exact h (hg c 0 r (Fin.pos_of_ne_zero hr0) hr)

theorem applyMove_fails_iff (b : Board) (c : Fin NumColumns) (playerId : Int) :
    (∃ b' e, ApplyMoveToBoard c playerId b = some (b', some e)) ↔
      ∀ r : Fin NumRows, b r c ≠ 0 := by
  by_cases hfull : ∀ r : Fin NumRows, b r c ≠ 0
  · exact ⟨fun _ => hfull, fun _ => ⟨b, _, applyMove_full b c playerId hfull⟩⟩
  · have hex : ∃ r : Fin NumRows, b r c = 0 := by
      push_neg at hfull
      exact hfull
    obtain ⟨r, hr, hlow⟩ := exists_lowest_empty b c hex
    have hp := applyMove_place b c playerId r hr hlow
    refine ⟨fun ⟨b', e, h⟩ => ?_, fun h => absurd h hfull⟩
    rw [hp] at h
    simp at h

/-- C18: on a board satisfying the gravity invariant, `IsBoardFull` is `true` exactly
when `ApplyMoveToBoard` returns an error for every in-range column and every
playerId; and for an in-range column `c`, `ApplyMoveToBoard` returns an error exactly
when the top cell `board[0][c]` is non-`Empty`. -/
theorem isBoardFull_iff_no_legal_move (b : Board) (hg : Gravity b) :
    (IsBoardFull b = some true ↔
      ∀ (c : Fin NumColumns) (playerId : Int),
        ∃ b' e, ApplyMoveToBoard c playerId b = some (b', some e)) ∧
    (∀ (c : Fin NumColumns) (playerId : Int),
      (∃ b' e, ApplyMoveToBoard c playerId b = some (b', some e)) ↔ b 0 c ≠ Empty) := by
  have hcol : ∀ (c : Fin NumColumns) (playerId : Int),
      (∃ b' e, ApplyMoveToBoard c playerId b = some (b', some e)) ↔ b 0 c ≠ Empty :=
    fun c playerId => (applyMove_fails_iff b c playerId).trans (gravity_column_full_iff b hg c)
  refine ⟨?_, hcol⟩
  rw [(IsBoardFull_decides b).eq_true_iff]
  constructor
  · intro h c playerId
    exact (hcol c playerId).2 (h c)
  · intro h c
    exact (hcol c 1).1 (h c 1)

theorem isBoardFull_iff_no_legal_move_witness :
    Gravity twoPieces ∧
    ((IsBoardFull twoPieces = some true ↔
      ∀ (c : Fin NumColumns) (playerId : Int),
        ∃ b' e, ApplyMoveToBoard c playerId twoPieces = some (b', some e)) ∧
    (∀ (c : Fin NumColumns) (playerId : Int),
      (∃ b' e, ApplyMoveToBoard c playerId twoPieces = some (b', some e)) ↔
        twoPieces 0 c ≠ Empty)) :=
  ⟨by decide, isBoardFull_iff_no_legal_move twoPieces (by decide)⟩

/-! ## Counting pieces -/

theorem nonEmptyCount_update (b : Board) (r : Fin NumRows) (c : Fin NumColumns) (v : Int)
    (hr : b r c = 0) (hv : v ≠ 0) :
    nonEmptyCount (b.update r c v) = nonEmptyCount b + 1 := by
  unfold nonEmptyCount
  have hins : (Finset.univ.filter fun rc : Fin NumRows × Fin NumColumns =>
        b.update r c v rc.1 rc.2 ≠ Empty) =
      insert (r, c) (Finset.univ.filter fun rc : Fin NumRows × Fin NumColumns =>
        b rc.1 rc.2 ≠ Empty) := by
    ext ⟨i, j⟩
    simp only [Finset.mem_filter, Finset.mem_univ, true_and, Finset.mem_insert, Prod.mk.injEq]
    by_cases hij : i = r ∧ j = c
    · obtain ⟨rfl, rfl⟩ := hij
      rw [Board.update_same]
      exact ⟨fun _ => Or.inl ⟨rfl, rfl⟩, fun _ => hv⟩
    · have hne : i ≠ r ∨ j ≠ c := by
        by_contra hcon
        push_neg at hcon
        exact hij hcon
      rw [Board.update_other b r c v i j hne]
      exact ⟨fun h => Or.inr h, fun h => h.resolve_left hij⟩
  rw [hins, Finset.card_insert_of_not_mem]
  simp only [Finset.mem_filter, Finset.mem_univ, true_and, not_not]
  exact hr

theorem nonEmptyCount_step (b b' : Board) (move playerId : Int) (hp : playerId ≠ Empty)
    (h : ApplyMoveToBoard move playerId b = some (b', none)) :
    nonEmptyCount b' = nonEmptyCount b + 1 := by
  rcases applyMove_cases b move playerId with ⟨-, h'⟩ | ⟨c, -, -, h'⟩ | ⟨c, r, -, hr, -, h'⟩
  · rw [h'] at h
    simp at h
  · rw [h'] at h
    simp at h
  · rw [h'] at h
    simp only [Option.some.injEq, Prod.mk.injEq, and_true] at h
    rw [← h]
    exact nonEmptyCount_update b r c playerId hr hp

theorem nonEmptyCount_init : nonEmptyCount InitializeBoard = 0 := by
  unfold nonEmptyCount
  rw [Finset.card_eq_zero, Finset.filter_eq_empty_iff]
  intro rc _ h
  exact h rfl

theorem nonEmptyCount_le (b : Board) : nonEmptyCount b ≤ 42 := by
  unfold nonEmptyCount
  have h := Finset.card_filter_le (Finset.univ : Finset (Fin NumRows × Fin NumColumns))
    (fun rc => b rc.1 rc.2 ≠ Empty)
  have hcard : (Finset.univ : Finset (Fin NumRows × Fin NumColumns)).card = 42 := by
    rw [Finset.card_univ, Fintype.card_prod, Fintype.card_fin, Fintype.card_fin]
    rfl
  omega

theorem all_nonEmpty_of_count (b : Board) (h : nonEmptyCount b = 42) :
    ∀ (r : Fin NumRows) (c : Fin NumColumns), b r c ≠ 0 := by
  unfold nonEmptyCount at h
  have hcard : (Finset.univ : Finset (Fin NumRows × Fin NumColumns)).card = 42 := by
    rw [Finset.card_univ, Fintype.card_prod, Fintype.card_fin, Fintype.card_fin]
    rfl
  have heq : (Finset.univ.filter fun rc : Fin NumRows × Fin NumColumns =>
      b rc.1 rc.2 ≠ Empty) = Finset.univ :=
    Finset.eq_of_subset_of_card_le (Finset.filter_subset _ _) (by rw [h, hcard])
  intro r c
  have hmem : (r, c) ∈ (Finset.univ.filter fun rc : Fin NumRows × Fin NumColumns =>
      b rc.1 rc.2 ≠ Empty) := by
    rw [heq]
    exact Finset.mem_univ _
  exact (Finset.mem_filter.1 hmem).2

theorem applyMove_fails_of_full (b : Board)
    (hfull : ∀ (r : Fin NumRows) (c : Fin NumColumns), b r c ≠ 0) (move playerId : Int) :
    ∃ e, ApplyMoveToBoard move playerId b = some (b, some e) := by
  rcases applyMove_cases b move playerId with ⟨-, h⟩ | ⟨c, -, -, h⟩ | ⟨c, r, -, hr, -, -⟩
  · exact ⟨_, h⟩
  · exact ⟨_, h⟩
  · exact absurd hr (hfull r c)

theorem playCount_count (moves : List (Int × Int)) (hplayers : ∀ m ∈ moves, m.2 ≠ Empty)
    (b : Board) :
    ∃ (b' : Board) (n : Nat), playCount moves b = some (b', n) ∧
      nonEmptyCount b' = nonEmptyCount b + n := by
  induction moves generalizing b with
  | nil => exact ⟨b, 0, rfl, rfl⟩
  | cons m rest ih =>
    obtain ⟨move, playerId⟩ := m
    have hp : playerId ≠ Empty := hplayers (move, playerId) (List.mem_cons_self _ _)
    have hrest : ∀ m ∈ rest, m.2 ≠ Empty := fun m hm => hplayers m (List.mem_cons_of_mem _ hm)
    rcases applyMove_cases b move playerId with ⟨-, h⟩ | ⟨c, -, -, h⟩ | ⟨c, r, -, hr, -, h⟩
    · obtain ⟨b', n, hplay, hcount⟩ := ih hrest b
      refine ⟨b', n, ?_, hcount⟩
      simp [playCount, h, hplay]
    · obtain ⟨b', n, hplay, hcount⟩ := ih hrest b
      refine ⟨b', n, ?_, hcount⟩
      simp [playCount, h, hplay]
    · obtain ⟨b', n, hplay, hcount⟩ := ih hrest (b.update r c playerId)
      refine ⟨b', n + 1, ?_, ?_⟩
      · simp [playCount, h, hplay]
      · rw [hcount, nonEmptyCount_update b r c playerId hr hp]
        omega

/-- C19: a successful `ApplyMoveToBoard` call with a non-`Empty` playerId increases
the number of non-`Empty` cells by exactly one.  So a sequence of calls with
non-`Empty` playerIds from `InitializeBoard` returns a board whose number of
non-`Empty` cells is the number `n` of successful calls, `n` is at most 42, and when
`n = 42` `IsBoardFull` is `true` and every further call, for any column and
playerId, fails leaving the board unchanged. -/
theorem successes_bounded_by_cells (moves : List (Int × Int))
    (hplayers : ∀ m ∈ moves, m.2 ≠ Empty) :
    (∀ (b b' : Board) (move playerId : Int), playerId ≠ Empty →
      ApplyMoveToBoard move playerId b = some (b', none) →
      nonEmptyCount b' = nonEmptyCount b + 1) ∧
    ∃ (b : Board) (n : Nat), playCount moves InitializeBoard = some (b, n) ∧
      nonEmptyCount b = n ∧ n ≤ NumRows * NumColumns ∧
      (n = NumRows * NumColumns →
        IsBoardFull b = some true ∧
        ∀ move playerId : Int, ∃ e, ApplyMoveToBoard move playerId b = some (b, some e)) := by
  refine ⟨nonEmptyCount_step, ?_⟩
  obtain ⟨b, n, hplay, hcount⟩ := playCount_count moves hplayers InitializeBoard
  rw [nonEmptyCount_init, Nat.zero_add] at hcount
  refine ⟨b, n, hplay, hcount, ?_, fun hn => ?_⟩
  · rw [← hcount]
    exact nonEmptyCount_le b
  · have hfull := all_nonEmpty_of_count b (hcount.trans hn)
    exact ⟨(IsBoardFull_decides b).1 (fun c => hfull 0 c), applyMove_fails_of_full b hfull⟩

theorem successes_bounded_by_cells_witness :
    (∀ m ∈ fillMoves, m.2 ≠ Empty) ∧
    (playCount fillMoves InitializeBoard).map Prod.snd = some (NumRows * NumColumns) ∧
    ((∀ (b b' : Board) (move playerId : Int), playerId ≠ Empty →
      ApplyMoveToBoard move playerId b = some (b', none) →
      nonEmptyCount b' = nonEmptyCount b + 1) ∧
    ∃ (b : Board) (n : Nat), playCount fillMoves InitializeBoard = some (b, n) ∧
      nonEmptyCount b = n ∧ n ≤ NumRows * NumColumns ∧
      (n = NumRows * NumColumns →
        IsBoardFull b = some true ∧
        ∀ move playerId : Int, ∃ e, ApplyMoveToBoard move playerId b = some (b, some e))) :=
  ⟨by decide, by decide, successes_bounded_by_cells fillMoves (by decide)⟩

/-! ## Left-right mirroring -/

theorem mirror_cell (b : Board) (r : Fin NumRows) (c j : Fin NumColumns)
    (hj : j.val = 6 - c.val) : mirror b r c = b r j := by
  unfold mirror
  congr 1
  exact Fin.ext hj.symm

theorem mirror_get (b : Board) (r c : Int) : (mirror b).get r c = b.get r (6 - c) := by
  by_cases h : 0 ≤ r ∧ r < 6 ∧ 0 ≤ c ∧ c < 7
  · obtain ⟨h1, h2, h3, h4⟩ := h
    have hi : r.toNat < NumRows := by
      show r.toNat < 6
      omega
    have hj : c.toNat < NumColumns := by
      show c.toNat < 7
      omega
    have hj' : 6 - c.toNat < NumColumns := by
      show 6 - c.toNat < 7
      omega
    have hr : ((r.toNat : Nat) : Int) = r := Int.toNat_of_nonneg h1
    have hc : ((c.toNat : Nat) : Int) = c := Int.toNat_of_nonneg h3
    have hc' : ((6 - c.toNat : Nat) : Int) = 6 - c := by omega
    have hg := Board.get_fin (mirror b) ⟨r.toNat, hi⟩ ⟨c.toNat, hj⟩
    have hg' := Board.get_fin b ⟨r.toNat, hi⟩ ⟨6 - c.toNat, hj'⟩
    simp only at hg hg'
    rw [hr, hc] at hg
    rw [hr, hc'] at hg'
    rw [hg, hg', mirror_cell b ⟨r.toNat, hi⟩ ⟨c.toNat, hj⟩ ⟨6 - c.toNat, hj'⟩ rfl]
  · have hn : (mirror b).get r c = none := (Board.get_eq_none_iff _ r c).2 h
    have hn' : b.get r (6 - c) = none := (Board.get_eq_none_iff _ r (6 - c)).2 (by omega)
    rw [hn, hn']

theorem lineAt_mirror (b : Board) (row column dRow dColumn : Int) :
    lineAt (mirror b) row column dRow dColumn ↔ lineAt b row (6 - column) dRow (-dColumn) := by
  unfold lineAt
  have hcol : ∀ i : Nat, 6 - (column + i * dColumn) = 6 - column + i * (-dColumn) := by
    intro i
    ring
  constructor
  · rintro ⟨color, hne, hall⟩
    refine ⟨color, hne, fun i hi => ?_⟩
    have := hall i hi
    rw [mirror_get, hcol] at this
    exact this
  · rintro ⟨color, hne, hall⟩
    refine ⟨color, hne, fun i hi => ?_⟩
    rw [mirror_get, hcol]
    exact hall i hi

theorem lineAt_reverse (b : Board) (row column dRow dColumn : Int)
    (h : lineAt b row column dRow dColumn) :
    lineAt b (row + 3 * dRow) (column + 3 * dColumn) (-dRow) (-dColumn) := by
  obtain ⟨color, hne, hall⟩ := h
  refine ⟨color, hne, fun i hi => ?_⟩
  have hi4 : i < 4 := hi
  have := hall (3 - i) (by show 3 - i < 4; omega)
  have hcast : ((3 - i : Nat) : Int) = 3 - (i : Int) := by omega
  rw [hcast] at this
  have hrow : row + 3 * dRow + i * (-dRow) = row + (3 - (i : Int)) * dRow := by ring
  have hcol : column + 3 * dColumn + i * (-dColumn) = column + (3 - (i : Int)) * dColumn := by
    ring
  rw [hrow, hcol]
  exact this

theorem fourInARow_mirror (b : Board) (h : FourInARow (mirror b)) : FourInARow b := by
  obtain ⟨row, column, d, hd, hline⟩ := h
  rw [lineAt_mirror] at hline
  simp only [axes, List.mem_cons, List.mem_singleton, List.not_mem_nil, or_false] at hd
  rcases hd with rfl | rfl | rfl | rfl
  · refine ⟨row, 6 - column, (1, 0), by simp [axes], ?_⟩
    simpa using hline
  · have hrev := lineAt_reverse b row (6 - column) 0 (-1) hline
    refine ⟨row, 6 - column + 3 * (-1), (0, 1), by simp [axes], ?_⟩
    simpa using hrev
  · exact ⟨row, 6 - column, (1, -1), by simp [axes], hline⟩
  · refine ⟨row, 6 - column, (1, 1), by simp [axes], ?_⟩
    simpa using hline

theorem mirror_mirror (b : Board) : mirror (mirror b) = b := by
  funext r c
  have hc : c.val < 7 := c.isLt
  unfold mirror
  congr 1
  apply Fin.ext
  show 7 - 1 - (7 - 1 - c.val) = c.val
  omega

/-- C20: `GameOver` gives the same result on a board and on its left-right mirror
image `b'[r][c] = b[r][NumColumns-1-c]`. -/
theorem gameOver_mirror (b : Board) :
    (∀ (r : Fin NumRows) (c j : Fin NumColumns), j.val = NumColumns - 1 - c.val →
      mirror b r c = b r j) ∧
    GameOver (mirror b) = GameOver b := by
  refine ⟨fun r c j hj => mirror_cell b r c j hj, ?_⟩
  have hd := GameOver_decides b
  have hd' := GameOver_decides (mirror b)
  rw [← fourInARow_iff_scanned] at hd hd'
  by_cases h : FourInARow b
  · have h' : FourInARow (mirror b) := by
      apply fourInARow_mirror
      rw [mirror_mirror]
      exact h
    rw [hd.1 h, hd'.1 h']
  · have h' : ¬ FourInARow (mirror b) := fun hm => h (fourInARow_mirror b hm)
    rw [hd.2 h, hd'.2 h']

end Arena
